import Mathlib

/-!
Verification development for the pseudocode interpreter repository
(tokenizer `lexer.ts`, tree-walking evaluator `interpreter.ts`, simulated
memory arena `memory.ts`).  Each section shallowly embeds the TypeScript
source it names; JavaScript numbers are modelled as rationals (`ℚ`),
JavaScript `undefined` as an explicit `Value.undef` case, thrown errors as
`Except`.
-/

set_option maxRecDepth 4000

namespace Pseudo

/-- Run-time values of the interpreter.  The `value` field of a `Variable`
in `interpreter.ts` is an untyped JavaScript value holding a number, a
string, a boolean, or `undefined` before first assignment.  Numbers are
modelled as rationals (floating-point rounding is outside the scope of the
claims considered here). -/
inductive Value where
  | num (q : ℚ)
  | str (s : String)
  | bool (b : Bool)
  | undef
deriving DecidableEq, Repr

/-- Kind tag of a value, mirroring JavaScript `typeof`. -/
def Value.kind : Value → String
  | .num _ => "number"
  | .str _ => "string"
  | .bool _ => "boolean"
  | .undef => "undefined"

/-- Test for the number case. -/
def Value.isNum : Value → Bool
  | .num _ => true
  | _ => false

/-- Test for the string case. -/
def Value.isStr : Value → Bool
  | .str _ => true
  | _ => false

/-- JavaScript strict equality `===` restricted to the value fragment
above: values of different kinds are never equal, values of one kind
compare componentwise.  (`NaN` does not arise in the rational model.) -/
def jsStrictEq : Value → Value → Bool
  | .num a, .num b => a = b
  | .str a, .str b => a = b
  | .bool a, .bool b => a = b
  | .undef, .undef => true
  | _, _ => false

/-- Embedding of `Interpreter.valueToString`: booleans render as
`TRUE`/`FALSE`, `undefined` as the empty string, anything else through
`String(...)` (numeric rendering is abstracted by `toString` on `ℚ`;
no claim below depends on the digits produced). -/
def valueToString (v : Value) : String :=
  match v with
  | .bool b => if b then "TRUE" else "FALSE"
  | .undef => ""
  | .num q => toString q
  | .str s => s

/-- JavaScript `%`: remainder with the sign of the dividend
(`a - b * trunc(a / b)`). -/
def jsMod (a b : ℚ) : ℚ :=
  a - b * (Rat.floor (|a / b|) * (if a / b < 0 then -1 else 1))

/-- String comparison used for `<`, `>`, `<=`, `>=` on strings
(lexicographic, as JavaScript compares strings). -/
def jsStrLt (a b : String) : Bool :=
  compare a b == Ordering.lt

/-- Embedding of the operator dispatch of `Interpreter.evaluateBinaryOp`
(interpreter.ts lines 1244-1354), applied to already-evaluated operand
values. -/
def evaluateBinaryOp (op : String) (left right : Value) : Except String Value :=
  match op with
  | "+" =>
    match left, right with
    | .num a, .num b => .ok (.num (a + b))
    | _, _ => .error "Cannot perform arithmetic on non-numbers"
  | "-" =>
    match left, right with
    | .num a, .num b => .ok (.num (a - b))
    | _, _ => .error "Cannot perform arithmetic on non-numbers"
  | "*" =>
    match left, right with
    | .num a, .num b => .ok (.num (a * b))
    | _, _ => .error "Cannot perform arithmetic on non-numbers"
  | "/" =>
    match left, right with
    | .num a, .num b =>
      if b = 0 then .error "Division by zero" else .ok (.num (a / b))
    | _, _ => .error "Cannot perform arithmetic on non-numbers"
  | "DIV" =>
    match left, right with
    | .num a, .num b =>
      if b = 0 then .error "Division by zero" else .ok (.num (⌊a / b⌋ : ℤ))
    | _, _ => .error "Cannot perform arithmetic on non-numbers"
  | "MOD" =>
    match left, right with
    | .num a, .num b =>
      if b = 0 then .error "Division by zero" else .ok (.num (jsMod a b))
    | _, _ => .error "Cannot perform arithmetic on non-numbers"
  | "&" => .ok (.str (valueToString left ++ valueToString right))
  | "=" => .ok (.bool (jsStrictEq left right))
  | "<>" => .ok (.bool (! jsStrictEq left right))
  | "<" =>
    match left, right with
    | .num a, .num b => .ok (.bool (a < b))
    | .str a, .str b => .ok (.bool (jsStrLt a b))
    | _, _ => .error "Invalid comparison"
  | ">" =>
    match left, right with
    | .num a, .num b => .ok (.bool (b < a))
    | .str a, .str b => .ok (.bool (jsStrLt b a))
    | _, _ => .error "Invalid comparison"
  | "<=" =>
    match left, right with
    | .num a, .num b => .ok (.bool (a ≤ b))
    | .str a, .str b => .ok (.bool (!jsStrLt b a))
    | _, _ => .error "Invalid comparison"
  | ">=" =>
    match left, right with
    | .num a, .num b => .ok (.bool (b ≤ a))
    | .str a, .str b => .ok (.bool (!jsStrLt a b))
    | _, _ => .error "Invalid comparison"
  | "AND" =>
    match left, right with
    | .bool a, .bool b => .ok (.bool (a && b))
    | _, _ => .error "Logical operators require boolean operands"
  | "OR" =>
    match left, right with
    | .bool a, .bool b => .ok (.bool (a || b))
    | _, _ => .error "Logical operators require boolean operands"
  | _ => .error ("Unknown operator: " ++ op)

/-- Loop guard of `Interpreter.executeFor`: with a positive step the loop
runs while `variable <= end`, with a negative step while
`variable >= end`.  The loop variable is always an integer (it is set to
`Math.floor(start)` and advanced by integer amounts). -/
def forLoopCond (pos : Bool) (endv : ℚ) (v : ℤ) : Bool :=
  if pos then decide ((v : ℚ) ≤ endv) else decide (endv ≤ (v : ℚ))

/-- Body of the `while` loops of `Interpreter.executeFor` (interpreter.ts
lines 528-542): while the guard holds the current value is visited and the
variable is advanced by `Math.floor(step)`, recomputed from the original
step each iteration.  The loop has no internal bound, so a fuel parameter
makes the embedding total; `none` signals exhausted fuel (the source would
keep iterating). -/
def forVisitsAux (pos : Bool) (endv step : ℚ) : ℕ → ℤ → Option (List ℤ)
  | 0, _ => none
  | fuel + 1, v =>
    if forLoopCond pos endv v then
      (forVisitsAux pos endv step fuel (v + ⌊step⌋)).map (fun l => v :: l)
    else
      some []

/-- Embedding of `Interpreter.executeFor` (interpreter.ts lines 500-543)
for start/end/step values that evaluate to numbers, projected onto the
sequence of values taken by the loop variable when the body runs.  A step
of exactly 0 is rejected before `Math.floor(start)` is computed; otherwise
the variable starts at `⌊start⌋` and the positive branch is chosen exactly
when `step > 0`. -/
def executeFor (start endv step : ℚ) (fuel : ℕ) : Except String (Option (List ℤ)) :=
  if step = 0 then .error "FOR loop STEP cannot be zero"
  else .ok (forVisitsAux (decide (0 < step)) endv step fuel ⌊start⌋)

/-- Recursion ceiling `MAX_RECURSION_DEPTH` (interpreter.ts line 47). -/
def MAX_RECURSION_DEPTH : ℕ := 1000

/-- Embedding of `Interpreter.executeProcedure` specialised to a procedure
whose body unconditionally calls itself (interpreter.ts lines 810-813):
entering a call first increments `recursionDepth` and raises
`Maximum recursion depth exceeded` when the incremented depth exceeds
`MAX_RECURSION_DEPTH`; otherwise the activation begins and the body calls
the procedure again at the deeper depth.  The result counts the
activations whose bodies begin executing, paired with the error message
that finally aborts the run.  (The statement budget `MAX_ITERATIONS =
10000` is not reached first: the run dispatches about one statement per
activation.) -/
def selfCall (depth : ℕ) : ℕ × String :=
  if MAX_RECURSION_DEPTH < depth + 1 then
    (0, "Maximum recursion depth exceeded")
  else
    let r := selfCall (depth + 1)
    (r.1 + 1, r.2)
termination_by MAX_RECURSION_DEPTH + 1 - depth
decreasing_by
  simp only [MAX_RECURSION_DEPTH] at *
  omega

/-- Pointwise update of the `ram` array. -/
def setRam (f : ℕ → Value) (a : ℕ) (v : Value) : ℕ → Value :=
  fun x => if x = a then v else f x

/-- Pointwise update of the `allocated` address set (membership map). -/
def setAlloc (f : ℕ → Bool) (a : ℕ) (b : Bool) : ℕ → Bool :=
  fun x => if x = a then b else f x

/-- Lookup in the `allocations` map (start address to size and type tag),
modelled as an association list with unique keys. -/
def mapGet (m : List (ℕ × ℕ × String)) (k : ℕ) : Option (ℕ × String) :=
  (m.find? (fun e => e.1 = k)).map (fun e => e.2)

/-- JavaScript `Map.set`: replace the entry for the key when present,
otherwise append a new entry. -/
def mapSet (m : List (ℕ × ℕ × String)) (k : ℕ) (v : ℕ × String) :
    List (ℕ × ℕ × String) :=
  if m.any (fun e => e.1 = k) then
    m.map (fun e => if e.1 = k then (k, v) else e)
  else
    m ++ [(k, v)]

/-- JavaScript `Map.delete`. -/
def mapDelete (m : List (ℕ × ℕ × String)) (k : ℕ) : List (ℕ × ℕ × String) :=
  m.filter (fun e => ! (e.1 = k : Bool))

/-- First kilobyte of the arena is reserved (`SYSTEM_RESERVED`,
memory.ts line 25). -/
def SYSTEM_RESERVED : ℕ := 1024

/-- State of `MemoryEngine` (memory.ts lines 17-33): a fixed-size slot
array (`undefined`-filled, modelled by `Value.undef`), the set of
allocated addresses, the allocation table, the free-address watermark and
the arena size. -/
structure MemoryEngine where
  ram : ℕ → Value
  allocated : ℕ → Bool
  allocations : List (ℕ × ℕ × String)
  nextFreeAddress : ℕ
  memorySize : ℕ

/-- The `MemoryEngine` constructor for a given arena size (the source
default is 65536). -/
def MemoryEngine.init (size : ℕ) : MemoryEngine where
  ram := fun _ => .undef
  allocated := fun _ => false
  allocations := []
  nextFreeAddress := SYSTEM_RESERVED
  memorySize := size

/-- Loop of `markAllocated` adding `size` consecutive addresses starting
at `a` to the allocated set. -/
def addRange (f : ℕ → Bool) (a : ℕ) : ℕ → (ℕ → Bool)
  | 0 => f
  | n + 1 => setAlloc (addRange f a n) (a + n) true

/-- Clearing loop of `MemoryEngine.free` (memory.ts lines 62-66): for each
slot of the block, remove the allocated mark and reset the slot to
`undefined`. -/
def clearRange (m : MemoryEngine) (a : ℕ) : ℕ → MemoryEngine
  | 0 => m
  | n + 1 =>
    let m' := clearRange m a n
    { m' with
      allocated := setAlloc m'.allocated (a + n) false
      ram := setRam m'.ram (a + n) .undef }

/-- Embedding of `MemoryEngine.recalculateNextFreeAddress` (memory.ts
lines 315-321): the maximum end address over the remaining allocations,
at least `SYSTEM_RESERVED`. -/
def recalcNextFreeAddress (allocs : List (ℕ × ℕ × String)) : ℕ :=
  allocs.foldl (fun acc e => max acc (e.1 + e.2.1)) SYSTEM_RESERVED

/-- Embedding of `MemoryEngine.free` (memory.ts lines 55-75). -/
def MemoryEngine.free (m : MemoryEngine) (address : ℕ) :
    Except String MemoryEngine :=
  match mapGet m.allocations address with
  | none => .error ("Invalid free: address " ++ toString address ++ " not allocated")
  | some (size, _t) =>
    let m1 := clearRange m address size
    let m2 := { m1 with allocations := mapDelete m1.allocations address }
    if m2.nextFreeAddress ≤ address + size then
      .ok { m2 with nextFreeAddress := recalcNextFreeAddress m2.allocations }
    else
      .ok m2

/-- Embedding of `MemoryEngine.read` (memory.ts lines 82-92).  Addresses
are naturals, so the `address < 0` half of the source bounds check cannot
fire. -/
def MemoryEngine.read (m : MemoryEngine) (address : ℕ) : Except String Value :=
  if m.memorySize ≤ address then
    .error ("Memory read error: address " ++ toString address ++
      " out of bounds (0-" ++ toString (m.memorySize - 1) ++ ")")
  else if ! m.allocated address then
    .error ("Memory read error: address " ++ toString address ++ " not allocated")
  else
    .ok (m.ram address)

/-- Embedding of `MemoryEngine.write` (memory.ts lines 99-109). -/
def MemoryEngine.write (m : MemoryEngine) (address : ℕ) (value : Value) :
    Except String MemoryEngine :=
  if m.memorySize ≤ address then
    .error ("Memory write error: address " ++ toString address ++
      " out of bounds (0-" ++ toString (m.memorySize - 1) ++ ")")
  else if ! m.allocated address then
    .error ("Memory write error: address " ++ toString address ++ " not allocated")
  else
    .ok { m with ram := setRam m.ram address value }

/-- Inner scan of `findFreeBlock` (memory.ts lines 281-287): index of the
first allocated slot among the `size` slots starting at `address`, if
any. -/
def scanBlock (alloc : ℕ → Bool) (address size : ℕ) : Option ℕ :=
  (List.range size).find? (fun i => alloc (address + i))

/-- Embedding of the `while` loop of `MemoryEngine.findFreeBlock`
(memory.ts lines 273-295): linear forward scan from `address`; on an
obstruction at offset `i` the scan restarts just past it. -/
def findFreeBlockGo (alloc : ℕ → Bool) (memorySize size address : ℕ) :
    Except String ℕ :=
  if address + size ≤ memorySize then
    match h : scanBlock alloc address size with
    | none => .ok address
    | some i => findFreeBlockGo alloc memorySize size (address + i + 1)
  else
    .error ("Memory allocation error: cannot find contiguous block of size " ++
      toString size)
termination_by memorySize - address
decreasing_by
  have hm := List.mem_of_find?_eq_some h
  rw [List.mem_range] at hm
  omega

/-- Embedding of `MemoryEngine.findFreeBlock`: the scan starts at the
current `nextFreeAddress` watermark. -/
def MemoryEngine.findFreeBlock (m : MemoryEngine) (size : ℕ) : Except String ℕ :=
  findFreeBlockGo m.allocated m.memorySize size m.nextFreeAddress

/-- Embedding of `MemoryEngine.markAllocated` (memory.ts lines 303-310). -/
def MemoryEngine.markAllocated (m : MemoryEngine) (address size : ℕ)
    (type : String) : MemoryEngine :=
  { m with
    allocated := addRange m.allocated address size
    allocations := mapSet m.allocations address (size, type)
    nextFreeAddress := max m.nextFreeAddress (address + size) }

/-- Embedding of `MemoryEngine.allocate` (memory.ts lines 41-49),
returning the start address together with the updated engine. -/
def MemoryEngine.allocate (m : MemoryEngine) (size : ℕ) (type : String) :
    Except String (ℕ × MemoryEngine) :=
  if size ≤ 0 then
    .error ("Memory allocation error: size must be positive, got " ++ toString size)
  else
    match m.findFreeBlock size with
    | .error e => .error e
    | .ok address => .ok (address, m.markAllocated address size type)

/-- Arena state after `allocate(1, "INTEGER")` on a fresh 1030-slot
engine returns address 1024. -/
def cexM1 : MemoryEngine :=
  (MemoryEngine.init 1030).markAllocated 1024 1 "INTEGER"

/-- Arena state after a second `allocate(1, "INTEGER")` returns
address 1025. -/
def cexM2 : MemoryEngine :=
  cexM1.markAllocated 1025 1 "INTEGER"

/-- Arena state after `free(1024)`: the slot at 1024 is cleared and its
allocation record removed, but the freed block was not the last one, so
the watermark stays at 1026. -/
def cexM3 : MemoryEngine :=
  { clearRange cexM2 1024 1 with
    allocations := mapDelete (clearRange cexM2 1024 1).allocations 1024 }

/-- The `Variable` record of types.ts lines 236-242 (scalar fragment:
the optional array fields are modelled separately by `ArrTree`). -/
structure Variable where
  type : String
  value : Value
  initialized : Bool
deriving DecidableEq, Repr

/-- Heap of `Variable` records.  JavaScript `Map<string, Variable>` holds
references to mutable record objects, so BYREF binding can alias one
record under two names; the embedding makes the records addressable cells
and lets contexts map names to cell references. -/
structure VarStore where
  cells : ℕ → Variable
  next : ℕ

/-- Update one cell of the store. -/
def VarStore.setCell (st : VarStore) (r : ℕ) (v : Variable) : VarStore :=
  { st with cells := fun x => if x = r then v else st.cells x }

/-- Scope chain flattened innermost-first: `Interpreter.getVariable`
(interpreter.ts lines 1536-1547) walks the chain and returns the first
binding found, which is exactly first-match lookup on this list. -/
abbrev Ctx := List (String × ℕ)

/-- Embedding of `Interpreter.getVariable`, returning the reference of the
first binding for `name` along the scope chain. -/
def getVariableRef (ctx : Ctx) (name : String) : Option ℕ :=
  (List.find? (fun e => e.1 = name) ctx).map (fun e => e.2)

/-- JavaScript `Map.set` on a scope: replace the binding when the name is
already bound in this scope, otherwise append it. -/
def ctxSet (ctx : Ctx) (k : String) (v : ℕ) : Ctx :=
  if List.any ctx (fun e => e.1 = k) then
    List.map (fun e => if e.1 = k then (k, v) else e) ctx
  else
    ctx ++ [(k, v)]

/-- Expression fragment needed by the claims: literals and bare
identifiers. -/
inductive Expr where
  | lit (v : Value)
  | ident (name : String)
deriving DecidableEq, Repr

/-- Embedding of `Interpreter.evaluateIdentifier` (interpreter.ts lines
1181-1193): undeclared identifiers and identifiers that were never
assigned raise run-time errors; otherwise the stored value is returned. -/
def evaluateIdentifier (st : VarStore) (ctx : Ctx) (name : String) :
    Except String Value :=
  match getVariableRef ctx name with
  | none => .error ("Variable '" ++ name ++ "' not declared")
  | some r =>
    let v := st.cells r
    if ! v.initialized then
      .error ("Variable '" ++ name ++ "' used before assignment")
    else
      .ok v.value

/-- Expression evaluation on the fragment (`Interpreter.evaluateExpression`
cases `Literal` and `Identifier`, interpreter.ts lines 1155-1162). -/
def evaluateExpr (st : VarStore) (ctx : Ctx) : Expr → Except String Value
  | .lit v => .ok v
  | .ident n => evaluateIdentifier st ctx n

/-- Embedding of the identifier-target branch of
`Interpreter.executeAssignment` (interpreter.ts lines 272-284): evaluate
the right-hand side, resolve the variable, then overwrite its value and
set its initialized flag in place (all aliases observe the update). -/
def executeAssignment (st : VarStore) (ctx : Ctx) (name : String) (e : Expr) :
    Except String VarStore :=
  match evaluateExpr st ctx e with
  | .error msg => .error msg
  | .ok value =>
    match getVariableRef ctx name with
    | none => .error ("Variable '" ++ name ++ "' not declared")
    | some r =>
      .ok (st.setCell r { st.cells r with value := value, initialized := true })

/-- Embedding of the scalar branch of `Interpreter.executeDeclare`
(interpreter.ts lines 245-251): bind the name to a fresh uninitialized
record in the current scope. -/
def declareVar (st : VarStore) (ctx : Ctx) (name ty : String) : Ctx × VarStore :=
  (ctxSet ctx name st.next,
   { cells := fun x => if x = st.next then ⟨ty, .undef, false⟩ else st.cells x,
     next := st.next + 1 })

/-- Procedure parameter (name, declared type, BYREF flag). -/
structure Param where
  name : String
  type : String
  byRef : Bool
deriving DecidableEq, Repr

/-- Parameter-binding loop of `Interpreter.executeProcedure`
(interpreter.ts lines 823-848), processing parameter/argument pairs into
the fresh local scope: a BYREF parameter requires a bare identifier
argument and is bound to the caller's existing cell reference (no copy);
a BYVAL parameter gets a fresh cell holding a copy of the evaluated
argument. -/
def bindLoop (callerCtx : Ctx) :
    List (Param × Expr) → Ctx → VarStore → Except String (Ctx × VarStore)
  | [], acc, st => .ok (acc, st)
  | (p, a) :: rest, acc, st =>
    if p.byRef then
      match a with
      | .ident varName =>
        match getVariableRef callerCtx varName with
        | none => .error ("Variable '" ++ varName ++ "' not found")
        | some r => bindLoop callerCtx rest (ctxSet acc p.name r) st
      | _ => .error "BYREF parameter must be a variable"
    else
      match evaluateExpr st callerCtx a with
      | .error e => .error e
      | .ok value =>
        bindLoop callerCtx rest (ctxSet acc p.name st.next)
          { cells := fun x => if x = st.next then ⟨p.type, value, true⟩ else st.cells x,
            next := st.next + 1 }

/-- Embedding of the entry of `Interpreter.executeProcedure`
(interpreter.ts lines 800-848) up to the start of the body: argument
count check, then parameter binding; the callee's context is the local
scope chained to the global scope. -/
def bindParameters (params : List Param) (args : List Expr) (callerCtx : Ctx)
    (globalCtx : Ctx) (st : VarStore) (procName : String) :
    Except String (Ctx × VarStore) :=
  if args.length = params.length then
    match bindLoop callerCtx (params.zip args) [] st with
    | .error e => .error e
    | .ok (localCtx, st') => .ok (localCtx ++ globalCtx, st')
  else
    .error ("Incorrect number of arguments for procedure '" ++ procName ++ "'")

/-- Array representation of interpreter.ts: a nested structure whose
leaves are `{initialized, value}` records.  `createArray` populates every
index of `lower..upper` identically, so a dimension is modelled as a
total function from indices; the bounds checks of element access make the
extra indices unobservable. -/
inductive ArrTree where
  | cell (initialized : Bool) (value : Value)
  | dim (f : ℤ → ArrTree)

/-- Embedding of `Interpreter.createArray` (interpreter.ts lines 254-270)
on the dimension list. -/
def createArray : List (ℤ × ℤ) → ArrTree
  | [] => .cell false .undef
  | [_d] => .dim (fun _ => .cell false .undef)
  | _d :: d2 :: rest => .dim (fun _ => createArray (d2 :: rest))

/-- Embedding of `Interpreter.getArrayElement` (interpreter.ts lines
1217-1242).  A leaf reached with indices left over, or a nested level
reached by the final index, has no `initialized` field in the source
(reading it yields a falsy `undefined`), so those shapes take the
`accessed before assignment` error; shape mismatches the source would
crash on (never produced by the parser) fall to the bounds error. -/
def getArrayElement : ArrTree → List ℤ → List (ℤ × ℤ) → Except String Value
  | .dim f, [idx], (lower, upper) :: _ =>
    if idx < lower ∨ upper < idx then
      .error "Array index out of bounds"
    else
      match f idx with
      | .cell i v =>
        if ! i then .error "Array element accessed before assignment" else .ok v
      | .dim _ => .error "Array element accessed before assignment"
  | .dim f, idx :: idx2 :: restIdx, (lower, upper) :: restDims =>
    if idx < lower ∨ upper < idx then
      .error "Array index out of bounds"
    else
      getArrayElement (f idx) (idx2 :: restIdx) restDims
  | _, _, _ => .error "Array index out of bounds"

/-- Embedding of `Interpreter.setArrayElement` (interpreter.ts lines
309-329): bounds-check each index, then overwrite the leaf with an
initialized record holding the value. -/
def setArrayElement : ArrTree → List ℤ → Value → List (ℤ × ℤ) →
    Except String ArrTree
  | .dim f, [idx], value, (lower, upper) :: _ =>
    if idx < lower ∨ upper < idx then
      .error "Array index out of bounds"
    else
      .ok (.dim (fun x => if x = idx then .cell true value else f x))
  | .dim f, idx :: idx2 :: restIdx, value, (lower, upper) :: restDims =>
    if idx < lower ∨ upper < idx then
      .error "Array index out of bounds"
    else
      match setArrayElement (f idx) (idx2 :: restIdx) value restDims with
      | .error e => .error e
      | .ok sub => .ok (.dim (fun x => if x = idx then sub else f x))
  | _, _, _, _ => .error "Array index out of bounds"

/-- JavaScript whitespace characters relevant to `parseInt`/`parseFloat`
trimming. -/
def jsIsSpace (c : Char) : Bool :=
  c = ' ' ∨ c = '\t' ∨ c = '\n' ∨ c = '\r' ∨ c = '\x0b' ∨ c = '\x0c'

/-- Hexadecimal digit test. -/
def isHexDigitChar (c : Char) : Bool :=
  c.isDigit ∨ ('a' ≤ c ∧ c ≤ 'f') ∨ ('A' ≤ c ∧ c ≤ 'F')

/-- Numeric value of a digit character (decimal or hex). -/
def digitVal (c : Char) : ℕ :=
  if c.isDigit then c.toNat - '0'.toNat
  else if 'a' ≤ c ∧ c ≤ 'f' then c.toNat - 'a'.toNat + 10
  else if 'A' ≤ c ∧ c ≤ 'F' then c.toNat - 'A'.toNat + 10
  else 0

/-- Accumulate digit characters in the given base. -/
def digitsToNat (base : ℕ) (ds : List Char) : ℕ :=
  ds.foldl (fun a c => a * base + digitVal c) 0

/-- Leading sign split shared by the numeric parsers. -/
def splitSign : List Char → ℤ × List Char
  | '-' :: rest => (-1, rest)
  | '+' :: rest => (1, rest)
  | cs => (1, cs)

/-- JavaScript `parseInt(s)` with no radix argument: skip whitespace,
optional sign, then a maximal hexadecimal (after `0x`/`0X`) or decimal
digit prefix; `none` models the `NaN` result when no digit is found. -/
def parseIntJS (s : String) : Option ℤ :=
  let cs := s.toList.dropWhile jsIsSpace
  let (sign, cs2) := splitSign cs
  match cs2 with
  | '0' :: x :: rest =>
    if x = 'x' ∨ x = 'X' then
      let ds := rest.takeWhile isHexDigitChar
      if ds.isEmpty then none else some (sign * digitsToNat 16 ds)
    else
      some (sign * digitsToNat 10 (cs2.takeWhile Char.isDigit))
  | c :: _ =>
    if c.isDigit then some (sign * digitsToNat 10 (cs2.takeWhile Char.isDigit))
    else none
  | [] => none

/-- Test for the `Infinity` results of JavaScript `parseFloat`, which the
rational model cannot represent; the claims below are stated away from
these inputs. -/
def parseFloatIsInf (s : String) : Bool :=
  let cs := s.toList.dropWhile jsIsSpace
  let (_sign, cs2) := splitSign cs
  "Infinity".toList.isPrefixOf cs2

/-- JavaScript `parseFloat(s)` on finite results: skip whitespace,
optional sign, a maximal decimal literal prefix
`digits [. digits] [e [sign] digits]` where the integer and fraction part
may not both be empty; `none` models `NaN`. -/
def parseFloatJS (s : String) : Option ℚ :=
  let cs := s.toList.dropWhile jsIsSpace
  let (sign, cs2) := splitSign cs
  let ip := cs2.takeWhile Char.isDigit
  let cs3 := cs2.dropWhile Char.isDigit
  let (fp, cs4) :=
    match cs3 with
    | '.' :: rest => (rest.takeWhile Char.isDigit, rest.dropWhile Char.isDigit)
    | _ => ([], cs3)
  if ip.isEmpty ∧ fp.isEmpty then none
  else
    let mantissa : ℚ :=
      (digitsToNat 10 ip : ℚ) + (digitsToNat 10 fp : ℚ) / (10 : ℚ) ^ fp.length
    let exp : ℤ :=
      match cs4 with
      | e :: rest =>
        if e = 'e' ∨ e = 'E' then
          let (esign, rest2) := splitSign rest
          let ed := rest2.takeWhile Char.isDigit
          if ed.isEmpty then 0 else esign * digitsToNat 10 ed
        else 0
      | [] => 0
    some ((sign : ℚ) * mantissa * (10 : ℚ) ^ exp)

/-- JavaScript `toLowerCase()` on the ASCII range (the only characters
compared against `"true"`). -/
def jsToLower (s : String) : String :=
  String.mk (s.toList.map fun c =>
    if 'A' ≤ c ∧ c ≤ 'Z' then Char.ofNat (c.toNat + 32) else c)

/-- Embedding of the simple-variable path of `Interpreter.executeInput`
(interpreter.ts lines 342-375) after the input handler has supplied the
string: convert according to the declared type (`parseInt(input) || 0`,
`parseFloat(input) || 0.0`, case-insensitive comparison with `"true"`,
or the raw string), store it, mark the variable initialized, and echo the
raw input as the yielded output line.  This path throws only for an
undeclared target, which the claim excludes. -/
def executeInput (vr : Variable) (input : String) : Variable × String :=
  let value : Value :=
    match vr.type with
    | "INTEGER" => .num (((parseIntJS input).getD 0 : ℤ) : ℚ)
    | "REAL" => .num ((parseFloatJS input).getD 0)
    | "BOOLEAN" => .bool (jsToLower input = "true")
    | _ => .str input
  ({ vr with value := value, initialized := true }, input)

/-- Modelled from the spec: state of the pointer machine.  The pointer
evaluation code of the repository (`parser.ts` dereference-assignment
parsing and the interpreter's AddressOf/Dereference evaluation) is not
present under src/ — interpreter.ts lines 1155-1179 have no pointer
cases — so the semantics follow spec section 3 (variables live at arena
addresses recorded in `variableAddresses`; a pointer variable's value is
an address) and section 8 (aliasing law).  `varAddr` maps each declared
variable to its arena address and `mem` is the arena content. -/
structure PtrState where
  varAddr : String → Option ℕ
  mem : ℕ → Value

/-- Modelled from the spec: evaluating `&x` yields the arena address of
`x` as a number. -/
def evalAddressOf (s : PtrState) (x : String) : Except String Value :=
  match s.varAddr x with
  | none => .error ("Variable '" ++ x ++ "' not declared")
  | some a => .ok (.num a)

/-- Modelled from the spec: reading a variable returns the arena content
at its address. -/
def readVar (s : PtrState) (x : String) : Except String Value :=
  match s.varAddr x with
  | none => .error ("Variable '" ++ x ++ "' not declared")
  | some a => .ok (s.mem a)

/-- Modelled from the spec: assigning to a variable writes the arena slot
at its address. -/
def assignVar (s : PtrState) (x : String) (v : Value) : Except String PtrState :=
  match s.varAddr x with
  | none => .error ("Variable '" ++ x ++ "' not declared")
  | some a => .ok { s with mem := fun y => if y = a then v else s.mem y }

/-- Modelled from the spec: `*q ← v` reads the address stored in `q` and
writes `v` to the arena slot at that address; a non-address value in `q`
is an invalid dereference. -/
def derefAssign (s : PtrState) (q : String) (v : Value) : Except String PtrState :=
  match readVar s q with
  | .error e => .error e
  | .ok w =>
    match w with
    | .num a =>
      if a.den = 1 ∧ 0 ≤ a.num then
        .ok { s with mem := fun y => if y = a.num.toNat then v else s.mem y }
      else
        .error "Invalid pointer dereference"
    | _ => .error "Invalid pointer dereference"

/-- Modelled from the spec: the statement sequence
`p ← &x` then `q ← p` then `*q ← v` of the aliasing law (spec section 8),
each assignment evaluating its right-hand side first. -/
def aliasProgram (s : PtrState) (p q x : String) (v : Value) :
    Except String PtrState :=
  match evalAddressOf s x with
  | .error e => .error e
  | .ok av =>
    match assignVar s p av with
    | .error e => .error e
    | .ok s1 =>
      match readVar s1 p with
      | .error e => .error e
      | .ok pv =>
        match assignVar s1 q pv with
        | .error e => .error e
        | .ok s2 => derefAssign s2 q v

/-- Token kinds of types.ts lines 6-21. -/
inductive TokenType where
  | keyword
  | identifier
  | number
  | string
  | operator
  | assignment
  | comma
  | colon
  | lparen
  | rparen
  | lbracket
  | rbracket
  | newline
  | comment
  | eof
deriving DecidableEq, Repr

/-- The `Token` record of types.ts lines 23-28. -/
structure Token where
  type : TokenType
  value : String
  line : ℕ
  column : ℕ
deriving DecidableEq, Repr

/-- Reserved-word set of lexer.ts lines 8-19. -/
def KEYWORDS : List String :=
  ["DECLARE", "CONSTANT", "IF", "THEN", "ELSE", "ENDIF", "WHILE", "DO", "ENDWHILE",
   "REPEAT", "UNTIL", "FOR", "TO", "STEP", "NEXT", "CASE", "OF", "OTHERWISE", "ENDCASE",
   "INTEGER", "REAL", "STRING", "CHAR", "BOOLEAN", "ARRAY",
   "INPUT", "OUTPUT", "PROCEDURE", "ENDPROCEDURE", "FUNCTION", "ENDFUNCTION",
   "RETURN", "RETURNS", "CALL", "BYVAL", "BYREF", "TRUE", "FALSE",
   "AND", "OR", "NOT", "DIV", "MOD",
   "OPENFILE", "CLOSEFILE", "READFILE", "WRITEFILE", "EOF",
   "READ", "WRITE", "APPEND",
   "MALLOC", "FREE", "SIZE_OF", "POINTER_TO_INTEGER", "POINTER_TO_REAL",
   "POINTER_TO_CHAR", "VOID_POINTER"]

/-- The four syntax errors `tokenize` can throw (lexer.ts lines 68, 75,
91, 98, 122, 238), each carrying the source line and column it reports. -/
inductive LexError where
  | unterminatedString (line column : ℕ)
  | unterminatedChar (line column : ℕ)
  | invalidHex (line column : ℕ)
  | unexpectedChar (c : Char) (line column : ℕ)
deriving DecidableEq, Repr

/-- Line reported by a lexer error. -/
def LexError.line : LexError → ℕ
  | .unterminatedString l _ => l
  | .unterminatedChar l _ => l
  | .invalidHex l _ => l
  | .unexpectedChar _ l _ => l

/-- Column reported by a lexer error. -/
def LexError.column : LexError → ℕ
  | .unterminatedString _ c => c
  | .unterminatedChar _ c => c
  | .invalidHex _ c => c
  | .unexpectedChar _ _ c => c

/-- The exact message strings thrown by lexer.ts. -/
def LexError.message : LexError → String
  | .unterminatedString l c =>
    "Unterminated string at line " ++ toString l ++ ", column " ++ toString c
  | .unterminatedChar l c =>
    "Unterminated character literal at line " ++ toString l ++ ", column " ++ toString c
  | .invalidHex l c =>
    "Invalid hex literal at line " ++ toString l ++ ", column " ++ toString c
  | .unexpectedChar ch l c =>
    "Unexpected character '" ++ String.singleton ch ++ "' at line " ++
      toString l ++ ", column " ++ toString c

/-- Character class `/[a-zA-Z_]/` of lexer.ts line 223. -/
def isIdentStart (c : Char) : Bool :=
  c.isAlpha ∨ c = '_'

/-- Character class `/[a-zA-Z0-9_]/` of lexer.ts line 226. -/
def isIdentChar (c : Char) : Bool :=
  c.isAlphanum ∨ c = '_'

/-- Main scanning loop of `tokenize` (lexer.ts lines 27-239).  The
branches appear in source order; branches keyed on distinct leading
characters are expressed as match arms (their relative order is
irrelevant because the guards are mutually exclusive in the source).
Tokens are appended as they are pushed; the final state carries the
line/column reached at end of input. -/
def lexGo (cs : List Char) (line column : ℕ) (tokens : List Token) :
    Except LexError (List Token × ℕ × ℕ) :=
  match cs with
  | [] => .ok (tokens, line, column)
  | ' ' :: rest => lexGo rest line (column + 1) tokens
  | '\t' :: rest => lexGo rest line (column + 1) tokens
  | '\r' :: rest => lexGo rest line (column + 1) tokens
  | '\n' :: rest =>
    lexGo rest (line + 1) 1 (tokens ++ [⟨.newline, "\n", line, column⟩])
  | '/' :: '/' :: rest =>
    let comment := rest.takeWhile (fun d => ! (d = '\n' : Bool))
    lexGo (rest.dropWhile (fun d => ! (d = '\n' : Bool))) line
      (column + 2 + comment.length)
      (tokens ++ [⟨.comment, String.mk comment, line, column + 2⟩])
  | '"' :: rest =>
    let content := rest.takeWhile (fun d => ! (d = '"' : Bool) ∧ ! (d = '\n' : Bool))
    match h : rest.dropWhile (fun d => ! (d = '"' : Bool) ∧ ! (d = '\n' : Bool)) with
    | [] => .error (.unterminatedString line column)
    | d :: rest2 =>
      if d = '"' then
        lexGo rest2 line (column + 1 + content.length + 1)
          (tokens ++ [⟨.string, String.mk content, line, column⟩])
      else
        .error (.unterminatedString line column)
  | '\'' :: rest =>
    let content := rest.takeWhile (fun d => ! (d = '\'' : Bool) ∧ ! (d = '\n' : Bool))
    match h : rest.dropWhile (fun d => ! (d = '\'' : Bool) ∧ ! (d = '\n' : Bool)) with
    | [] => .error (.unterminatedChar line column)
    | d :: rest2 =>
      if d = '\'' then
        lexGo rest2 line (column + 1 + content.length + 1)
          (tokens ++ [⟨.string, String.mk content, line, column⟩])
      else
        .error (.unterminatedChar line column)
  | '←' :: rest =>
    lexGo rest line (column + 1) (tokens ++ [⟨.assignment, "<--", line, column⟩])
  | '<' :: '-' :: '-' :: rest =>
    lexGo rest line (column + 3) (tokens ++ [⟨.assignment, "<--", line, column⟩])
  | '<' :: '=' :: rest =>
    lexGo rest line (column + 2) (tokens ++ [⟨.operator, "<=", line, column⟩])
  | '>' :: '=' :: rest =>
    lexGo rest line (column + 2) (tokens ++ [⟨.operator, ">=", line, column⟩])
  | '<' :: '>' :: rest =>
    lexGo rest line (column + 2) (tokens ++ [⟨.operator, "<>", line, column⟩])
  | '+' :: rest =>
    lexGo rest line (column + 1) (tokens ++ [⟨.operator, "+", line, column⟩])
  | '-' :: rest =>
    lexGo rest line (column + 1) (tokens ++ [⟨.operator, "-", line, column⟩])
  | '*' :: rest =>
    lexGo rest line (column + 1) (tokens ++ [⟨.operator, "*", line, column⟩])
  | '/' :: rest =>
    lexGo rest line (column + 1) (tokens ++ [⟨.operator, "/", line, column⟩])
  | '=' :: rest =>
    lexGo rest line (column + 1) (tokens ++ [⟨.operator, "=", line, column⟩])
  | '<' :: rest =>
    lexGo rest line (column + 1) (tokens ++ [⟨.operator, "<", line, column⟩])
  | '>' :: rest =>
    lexGo rest line (column + 1) (tokens ++ [⟨.operator, ">", line, column⟩])
  | '&' :: rest =>
    lexGo rest line (column + 1) (tokens ++ [⟨.operator, "&", line, column⟩])
  | ',' :: rest =>
    lexGo rest line (column + 1) (tokens ++ [⟨.comma, ",", line, column⟩])
  | ':' :: rest =>
    lexGo rest line (column + 1) (tokens ++ [⟨.colon, ":", line, column⟩])
  | '(' :: rest =>
    lexGo rest line (column + 1) (tokens ++ [⟨.lparen, "(", line, column⟩])
  | ')' :: rest =>
    lexGo rest line (column + 1) (tokens ++ [⟨.rparen, ")", line, column⟩])
  | '[' :: rest =>
    lexGo rest line (column + 1) (tokens ++ [⟨.lbracket, "[", line, column⟩])
  | ']' :: rest =>
    lexGo rest line (column + 1) (tokens ++ [⟨.rbracket, "]", line, column⟩])
  | c :: rest =>
    if c.isDigit then
      if (c = '0' : Bool) &&
          (match rest.head? with
           | some d => (d = 'x' : Bool) || (d = 'X' : Bool)
           | none => false) then
        let ds := rest.tail.takeWhile isHexDigitChar
        if ds.isEmpty then
          .error (.invalidHex line column)
        else
          lexGo (rest.tail.dropWhile isHexDigitChar) line (column + 2 + ds.length)
            (tokens ++ [⟨.number, "0x" ++ String.mk ds, line, column⟩])
      else
        let ds := c :: rest.takeWhile (fun d => d.isDigit ∨ (d = '.' : Bool))
        lexGo (rest.dropWhile (fun d => d.isDigit ∨ (d = '.' : Bool))) line
          (column + ds.length)
          (tokens ++ [⟨.number, String.mk ds, line, column⟩])
    else if isIdentStart c then
      let ds := c :: rest.takeWhile isIdentChar
      let ty : TokenType :=
        if KEYWORDS.contains (String.mk ds) then .keyword else .identifier
      lexGo (rest.dropWhile isIdentChar) line (column + ds.length)
        (tokens ++ [⟨ty, String.mk ds, line, column⟩])
    else
      .error (.unexpectedChar c line column)
termination_by cs.length
decreasing_by
  all_goals simp only [List.length_cons]
  all_goals
    first
    | omega
    | (have hd : (rest.dropWhile (fun d => ! (d = '\n' : Bool))).length ≤ rest.length :=
         (List.dropWhile_sublist _).length_le
       omega)
    | (have hd : (rest.dropWhile
           (fun d => ! (d = '"' : Bool) ∧ ! (d = '\n' : Bool))).length ≤ rest.length :=
         (List.dropWhile_sublist _).length_le
       rw [h] at hd
       simp only [List.length_cons] at hd
       omega)
    | (have hd : (rest.dropWhile
           (fun d => ! (d = '\'' : Bool) ∧ ! (d = '\n' : Bool))).length ≤ rest.length :=
         (List.dropWhile_sublist _).length_le
       rw [h] at hd
       simp only [List.length_cons] at hd
       omega)
    | (have hd : (rest.tail.dropWhile isHexDigitChar).length ≤ rest.tail.length :=
         (List.dropWhile_sublist _).length_le
       have ht := List.length_tail rest
       omega)
    | (have hd : (rest.dropWhile (fun d => d.isDigit ∨ (d = '.' : Bool))).length ≤ rest.length :=
         (List.dropWhile_sublist _).length_le
       omega)
    | (have hd : (rest.dropWhile isIdentChar).length ≤ rest.length :=
         (List.dropWhile_sublist _).length_le
       omega)

/-- Embedding of `tokenize` (lexer.ts lines 21-245): run the scanning
loop from line 1, column 1, then append the end-of-input token carrying
the final position. -/
def tokenize (code : String) : Except LexError (List Token) :=
  match lexGo code.toList 1 1 [] with
  | .error e => .error e
  | .ok (tokens, line, column) => .ok (tokens ++ [⟨.eof, "", line, column⟩])

/-! ### Theorems -/

/-- C9: the equality operators `=` and `<>` never raise a run-time error:
`=` returns strict identity of the operand values (so values of different
kinds always compare unequal) and `<>` its negation, while the ordering
operators `<`, `>`, `<=`, `>=` raise the `Invalid comparison` run-time
error unless both operands are numbers or both are strings. -/
theorem equality_total_ordering_guarded :
    (∀ l r : Value, evaluateBinaryOp "=" l r = .ok (.bool (jsStrictEq l r))) ∧
    (∀ l r : Value, evaluateBinaryOp "<>" l r = .ok (.bool (! jsStrictEq l r))) ∧
    (∀ l r : Value, l.kind ≠ r.kind → jsStrictEq l r = false) ∧
    (∀ op : String, ∀ l r : Value,
      (op = "<" ∨ op = ">" ∨ op = "<=" ∨ op = ">=") →
      (((l.isNum && r.isNum) || (l.isStr && r.isStr)) = true →
        ∃ b, evaluateBinaryOp op l r = .ok (.bool b)) ∧
      (((l.isNum && r.isNum) || (l.isStr && r.isStr)) = false →
        evaluateBinaryOp op l r = .error "Invalid comparison")) := by
  refine ⟨fun l r => rfl, fun l r => rfl, ?_, ?_⟩
  · intro l r hk
    cases l <;> cases r <;> first | rfl | exact absurd rfl hk
  · intro op l r hop
    constructor
    · intro hc
      rcases hop with rfl | rfl | rfl | rfl <;>
        cases l <;> cases r <;>
        simp only [Value.isNum, Value.isStr, Bool.and_self, Bool.or_self,
          Bool.false_or, Bool.or_false, Bool.and_false, Bool.false_and,
          Bool.true_and, Bool.and_true] at hc <;>
        first
        | exact ⟨_, rfl⟩
        | cases hc
    · intro hc
      rcases hop with rfl | rfl | rfl | rfl <;>
        cases l <;> cases r <;>
        simp only [Value.isNum, Value.isStr, Bool.and_self, Bool.or_self,
          Bool.false_or, Bool.or_false, Bool.and_false, Bool.false_and,
          Bool.true_and, Bool.and_true] at hc <;>
        first
        | rfl
        | cases hc

/-- Closed application of `equality_total_ordering_guarded` at concrete
values. -/
theorem equality_total_ordering_guarded_witness :
    jsStrictEq (.num 1) (.str "1") = false ∧
    evaluateBinaryOp "<" (.num 1) (.bool true) = .error "Invalid comparison" ∧
    (∃ b, evaluateBinaryOp "<=" (.num 1) (.num 2) = .ok (.bool b)) :=
  ⟨equality_total_ordering_guarded.2.2.1 (.num 1) (.str "1") (by decide),
   (equality_total_ordering_guarded.2.2.2 "<" (.num 1) (.bool true)
      (Or.inl rfl)).2 (by decide),
   (equality_total_ordering_guarded.2.2.2 "<=" (.num 1) (.num 2)
      (Or.inr (Or.inr (Or.inl rfl)))).1 (by decide)⟩

/-- Closed form of the unconditional self-call: called at recursion depth
`d`, exactly `1000 - d` further activations begin before the depth error
aborts the run. -/
theorem selfCall_closed_form :
    ∀ k d, 1000 - d ≤ k →
      selfCall d = (1000 - d, "Maximum recursion depth exceeded") := by
  intro k
  induction k with
  | zero =>
    intro d hd
    rw [selfCall.eq_def]
    have hcond : MAX_RECURSION_DEPTH < d + 1 := by
      simp only [MAX_RECURSION_DEPTH]; omega
    rw [if_pos hcond]
    have h0 : 1000 - d = 0 := by omega
    rw [h0]
  | succ n ih =>
    intro d hd
    rw [selfCall.eq_def]
    by_cases hc : MAX_RECURSION_DEPTH < d + 1
    · rw [if_pos hc]
      simp only [MAX_RECURSION_DEPTH] at hc
      have h0 : 1000 - d = 0 := by omega
      rw [h0]
    · rw [if_neg hc]
      simp only [MAX_RECURSION_DEPTH] at hc
      have hrec := ih (d + 1) (by omega)
      simp only [hrec]
      simp only [Prod.mk.injEq]
      refine ⟨by omega, by simp⟩

/-- C7: an unconditionally self-calling procedure raises the
`Maximum recursion depth exceeded` run-time error exactly at the
configured ceiling `MAX_RECURSION_DEPTH = 1000`: starting from depth 0,
exactly 1000 nested activations begin (so the call made by the 1000th
activation — the 1001st call — is the one that raises), an activation
begins at depth `d` exactly when `d < 1000`, and in particular the call
entered at depth 999 still begins while the call entered at depth 1000
raises at once. -/
theorem recursion_depth_ceiling_exact :
    MAX_RECURSION_DEPTH = 1000 ∧
    (∀ d, selfCall d = (1000 - d, "Maximum recursion depth exceeded")) ∧
    selfCall 0 = (1000, "Maximum recursion depth exceeded") ∧
    (selfCall 999).1 = 1 ∧ (selfCall 1000).1 = 0 := by
  have h := fun d => selfCall_closed_form 1000 d (by omega)
  exact ⟨rfl, h, by rw [h 0], by rw [h 999], by rw [h 1000]⟩

/-- C10: an `INPUT` into a declared variable never raises a run-time
error on a malformed string (`executeInput` is a total function): an
unparseable `INTEGER` input stores 0, an unparseable `REAL` input stores
0.0, a `BOOLEAN` input stores `true` exactly when the input equals
`"true"` case-insensitively, and in every case the raw input string is
echoed as the yielded output line and the variable is marked
initialized. -/
theorem input_mismatch_stores_default :
    (∀ vr : Variable, ∀ input, vr.type = "INTEGER" → parseIntJS input = none →
      (executeInput vr input).1.value = .num 0) ∧
    (∀ vr : Variable, ∀ input, vr.type = "REAL" → parseFloatJS input = none →
      parseFloatIsInf input = false →
      (executeInput vr input).1.value = .num 0) ∧
    (∀ vr : Variable, ∀ input, vr.type = "BOOLEAN" →
      (executeInput vr input).1.value = .bool (jsToLower input = "true")) ∧
    (∀ vr : Variable, ∀ input,
      (executeInput vr input).2 = input ∧
      (executeInput vr input).1.initialized = true) := by
  refine ⟨?_, ?_, ?_, ?_⟩
  · intro vr input hty hparse
    simp [executeInput, hty, hparse]
  · intro vr input hty hparse _hinf
    simp [executeInput, hty, hparse]
  · intro vr input hty
    simp [executeInput, hty]
  · intro vr input
    exact ⟨rfl, rfl⟩

/-- Closed application of `input_mismatch_stores_default` at concrete
inputs. -/
theorem input_mismatch_stores_default_witness :
    (executeInput ⟨"INTEGER", .undef, false⟩ "hello").1.value = .num 0 ∧
    (executeInput ⟨"REAL", .undef, false⟩ "hello").1.value = .num 0 ∧
    (executeInput ⟨"BOOLEAN", .undef, false⟩ "TRUE").1.value = .bool true ∧
    (executeInput ⟨"STRING", .undef, false⟩ "hi").2 = "hi" :=
  ⟨input_mismatch_stores_default.1 ⟨"INTEGER", .undef, false⟩ "hello" rfl (by decide),
   input_mismatch_stores_default.2.1 ⟨"REAL", .undef, false⟩ "hello" rfl
     (by decide) (by decide),
   by
     rw [input_mismatch_stores_default.2.2.1 ⟨"BOOLEAN", .undef, false⟩ "TRUE" rfl]
     decide,
   (input_mismatch_stores_default.2.2.2 ⟨"STRING", .undef, false⟩ "hi").1⟩

/-- C2 (spec-modelled): pointer aliasing — after `p ← &x; q ← p; *q ← v`
a read of `x` returns `v`: the two pointers share the one target address,
so the write through the second pointer is observed by the variable. -/
theorem pointer_aliasing_law (s : PtrState) (x p q : String) (ax ap aq : ℕ)
    (v : Value) (hx : s.varAddr x = some ax) (hp : s.varAddr p = some ap)
    (hq : s.varAddr q = some aq) :
    ∃ s3, aliasProgram s p q x v = .ok s3 ∧ readVar s3 x = .ok v := by
  simp only [aliasProgram, evalAddressOf, assignVar, readVar, derefAssign, hx,
    hp, hq, if_pos rfl]
  simp [Rat.den_natCast, Rat.num_natCast, hx]

/-- Closed application of `pointer_aliasing_law` at a concrete state. -/
theorem pointer_aliasing_law_witness :
    ∃ s3,
      aliasProgram
        ⟨fun n =>
            if n = "x" then some 1100
            else if n = "p" then some 1101
            else if n = "q" then some 1102
            else none,
          fun _ => .undef⟩
        "p" "q" "x" (.num 7) = .ok s3 ∧
      readVar s3 "x" = .ok (.num 7) :=
  pointer_aliasing_law _ "x" "p" "q" 1100 1101 1102 (.num 7)
    (by decide) (by decide) (by decide)

/-- Unfolding law of the `findFreeBlock` scanning loop (plain-match
form usable for rewriting). -/
theorem findFreeBlockGo_step (alloc : ℕ → Bool) (ms size address : ℕ) :
    findFreeBlockGo alloc ms size address =
      if address + size ≤ ms then
        match scanBlock alloc address size with
        | none => .ok address
        | some i => findFreeBlockGo alloc ms size (address + i + 1)
      else
        .error ("Memory allocation error: cannot find contiguous block of size " ++
          toString size) := by
  rw [findFreeBlockGo.eq_def]
  by_cases hle : address + size ≤ ms
  · simp only [if_pos hle]
    rcases hs : scanBlock alloc address size with _ | i <;> simp [hs]
  · simp [if_neg hle]

/-- A successful scan-loop result is the least address at or above the
start of the scan whose `size` consecutive slots are all free. -/
theorem findFreeBlockGo_ok (alloc : ℕ → Bool) (ms size : ℕ) :
    ∀ address a, findFreeBlockGo alloc ms size address = .ok a →
      address ≤ a ∧ a + size ≤ ms ∧
      (∀ i, i < size → alloc (a + i) = false) ∧
      (∀ b, address ≤ b → b < a → ∃ i, i < size ∧ alloc (b + i) = true) := by
  suffices H : ∀ n address a, ms - address = n →
      findFreeBlockGo alloc ms size address = .ok a →
      address ≤ a ∧ a + size ≤ ms ∧
      (∀ i, i < size → alloc (a + i) = false) ∧
      (∀ b, address ≤ b → b < a → ∃ i, i < size ∧ alloc (b + i) = true) by
    exact fun address a h => H (ms - address) address a rfl h
  intro n
  induction n using Nat.strong_induction_on with
  | _ n ih =>
    intro address a hn h
    rw [findFreeBlockGo_step] at h
    by_cases hle : address + size ≤ ms
    · rw [if_pos hle] at h
      cases hs : scanBlock alloc address size with
      | none =>
        simp only [hs] at h
        cases h
        refine ⟨le_refl _, hle, ?_, ?_⟩
        · intro i hi
          have hnone : ∀ x < size, alloc (address + x) = false := by
            simpa [scanBlock] using hs
          exact hnone i hi
        · intro b hb1 hb2
          omega
      | some i =>
        simp only [hs] at h
        have hsb : (List.range size).find? (fun i => alloc (address + i)) = some i := by
          simpa [scanBlock] using hs
        have hi : i < size := by
          have := List.mem_of_find?_eq_some hsb
          simpa [List.mem_range] using this
        have halloc : alloc (address + i) = true := by
          simpa using List.find?_some hsb
        have hrec := ih (ms - (address + i + 1)) (by omega) (address + i + 1) a rfl h
        obtain ⟨h1, h2, h3, h4⟩ := hrec
        refine ⟨by omega, h2, h3, ?_⟩
        intro b hb1 hb2
        by_cases hbc : address + i + 1 ≤ b
        · exact h4 b hbc hb2
        · exact ⟨address + i - b, by omega,
            by rw [show b + (address + i - b) = address + i by omega]; exact halloc⟩
    · rw [if_neg hle] at h
      cases h

/-- A failing scan loop produces the cannot-find message, and indeed
every candidate start at or above the scan start is obstructed. -/
theorem findFreeBlockGo_err (alloc : ℕ → Bool) (ms size : ℕ) :
    ∀ address e, findFreeBlockGo alloc ms size address = .error e →
      e = ("Memory allocation error: cannot find contiguous block of size " ++
        toString size) ∧
      (∀ b, address ≤ b → b + size ≤ ms → ∃ i, i < size ∧ alloc (b + i) = true) := by
  suffices H : ∀ n address e, ms - address = n →
      findFreeBlockGo alloc ms size address = .error e →
      e = ("Memory allocation error: cannot find contiguous block of size " ++
        toString size) ∧
      (∀ b, address ≤ b → b + size ≤ ms → ∃ i, i < size ∧ alloc (b + i) = true) by
    exact fun address e h => H (ms - address) address e rfl h
  intro n
  induction n using Nat.strong_induction_on with
  | _ n ih =>
    intro address e hn h
    rw [findFreeBlockGo_step] at h
    by_cases hle : address + size ≤ ms
    · rw [if_pos hle] at h
      cases hs : scanBlock alloc address size with
      | none =>
        simp only [hs] at h
        exact Except.noConfusion h
      | some i =>
        simp only [hs] at h
        have hsb : (List.range size).find? (fun i => alloc (address + i)) = some i := by
          simpa [scanBlock] using hs
        have hi : i < size := by
          have := List.mem_of_find?_eq_some hsb
          simpa [List.mem_range] using this
        have halloc : alloc (address + i) = true := by
          simpa using List.find?_some hsb
        have hrec := ih (ms - (address + i + 1)) (by omega) (address + i + 1) e rfl h
        obtain ⟨h1, h2⟩ := hrec
        refine ⟨h1, ?_⟩
        intro b hb1 hb2
        by_cases hbc : address + i + 1 ≤ b
        · exact h2 b hbc hb2
        · exact ⟨address + i - b, by omega,
            by rw [show b + (address + i - b) = address + i by omega]; exact halloc⟩
    · rw [if_neg hle] at h
      cases h
      exact ⟨rfl, fun b hb1 hb2 => by omega⟩

/-- Converse: the scan loop finds the least free run, so a position that
is free, in range, and minimal is the returned address. -/
theorem findFreeBlockGo_eq_ok (alloc : ℕ → Bool) (ms size : ℕ) :
    ∀ a address, address ≤ a → a + size ≤ ms →
      (∀ i, i < size → alloc (a + i) = false) →
      (∀ b, b < a → address ≤ b → ∃ i, i < size ∧ alloc (b + i) = true) →
      findFreeBlockGo alloc ms size address = .ok a := by
  suffices H : ∀ n a address, a - address = n → address ≤ a → a + size ≤ ms →
      (∀ i, i < size → alloc (a + i) = false) →
      (∀ b, b < a → address ≤ b → ∃ i, i < size ∧ alloc (b + i) = true) →
      findFreeBlockGo alloc ms size address = .ok a by
    exact fun a address h1 h2 h3 h4 => H (a - address) a address rfl h1 h2 h3 h4
  intro n
  induction n using Nat.strong_induction_on with
  | _ n ih =>
    intro a address hn h1 h2 h3 h4
    rw [findFreeBlockGo_step]
    rw [if_pos (by omega)]
    cases hs : scanBlock alloc address size with
    | none =>
      rcases Nat.eq_or_lt_of_le h1 with heq | hlt
      · simp [heq]
      · exfalso
        obtain ⟨i, hi, halloc⟩ := h4 address hlt (le_refl _)
        have hnone : ∀ x < size, alloc (address + x) = false := by
          simpa [scanBlock] using hs
        rw [hnone i hi] at halloc
        cases halloc
    | some i =>
      simp only []
      have hsb : (List.range size).find? (fun i => alloc (address + i)) = some i := by
        simpa [scanBlock] using hs
      have hi : i < size := by
        have := List.mem_of_find?_eq_some hsb
        simpa [List.mem_range] using this
      have halloc : alloc (address + i) = true := by
        simpa using List.find?_some hsb
      have hlow : address + i < a := by
        by_contra hge
        push_neg at hge
        have := h3 (address + i - a) (by omega)
        rw [show a + (address + i - a) = address + i by omega] at this
        rw [halloc] at this
        cases this
      exact ih (a - (address + i + 1)) (by omega) a (address + i + 1) rfl (by omega) h2 h3
        (fun b hb1 hb2 => h4 b hb1 (by omega))

/-- The `markAllocated` loop marks exactly the requested range. -/
theorem addRange_true_of_mem (f : ℕ → Bool) (a : ℕ) :
    ∀ n x, a ≤ x → x < a + n → addRange f a n x = true := by
  intro n
  induction n with
  | zero => intro x h1 h2; omega
  | succ k ih =>
    intro x h1 h2
    simp only [addRange, setAlloc]
    by_cases hx : x = a + k
    · simp [hx]
    · rw [if_neg hx]
      exact ih x h1 (by omega)

/-- Clearing a range does not change the arena size. -/
theorem clearRange_memorySize (m : MemoryEngine) (a : ℕ) :
    ∀ n, (clearRange m a n).memorySize = m.memorySize := by
  intro n
  induction n with
  | zero => rfl
  | succ k ih => simpa [clearRange] using ih

/-- Clearing a range does not change the allocation table. -/
theorem clearRange_allocations (m : MemoryEngine) (a : ℕ) :
    ∀ n, (clearRange m a n).allocations = m.allocations := by
  intro n
  induction n with
  | zero => rfl
  | succ k ih => simpa [clearRange] using ih

/-- Clearing a range does not change the watermark. -/
theorem clearRange_nextFreeAddress (m : MemoryEngine) (a : ℕ) :
    ∀ n, (clearRange m a n).nextFreeAddress = m.nextFreeAddress := by
  intro n
  induction n with
  | zero => rfl
  | succ k ih => simpa [clearRange] using ih

/-- The cleared slots lose their allocated mark. -/
theorem clearRange_allocated_in (m : MemoryEngine) (a : ℕ) :
    ∀ n x, a ≤ x → x < a + n → (clearRange m a n).allocated x = false := by
  intro n
  induction n with
  | zero => intro x h1 h2; omega
  | succ k ih =>
    intro x h1 h2
    simp only [clearRange, setAlloc]
    by_cases hx : x = a + k
    · simp [hx]
    · rw [if_neg hx]
      exact ih x h1 (by omega)

/-- Auxiliary: replacing the entry for a present key makes the key map to
the new value. -/
theorem find?_mapSet_aux :
    ∀ (m : List (ℕ × ℕ × String)) (k : ℕ) (v : ℕ × String),
      m.any (fun e => e.1 = k) = true →
      List.find? (fun e => e.1 = k)
        (m.map (fun e => if e.1 = k then (k, v) else e)) = some (k, v) := by
  intro m k v h
  induction m with
  | nil => simp at h
  | cons e t ih =>
    by_cases he : e.1 = k
    · simp [List.find?_cons, he]
    · simp only [List.any_cons] at h
      have ht : t.any (fun e => e.1 = k) = true := by
        simpa [he] using h
      simpa [List.find?_cons, he] using ih ht

/-- `Map.set` then `Map.get` on the same key yields the new value. -/
theorem mapGet_mapSet_self (m : List (ℕ × ℕ × String)) (k : ℕ) (v : ℕ × String) :
    mapGet (mapSet m k v) k = some v := by
  unfold mapGet mapSet
  by_cases h : m.any (fun e => e.1 = k)
  · rw [if_pos h, find?_mapSet_aux m k v h]
    rfl
  · rw [if_neg h]
    have hnone : List.find? (fun e => e.1 = k) m = none := by
      rw [List.find?_eq_none]
      intro x hx
      intro hxk
      exact h (List.any_eq_true.mpr ⟨x, hx, hxk⟩)
    rw [List.find?_append, hnone]
    simp

/-- Shape of a successful `free`: clears the allocated marks of the block
and keeps the arena size. -/
theorem free_ok_fields (m : MemoryEngine) (addr sz : ℕ) (t : String)
    (h : mapGet m.allocations addr = some (sz, t)) :
    ∃ m3, m.free addr = .ok m3 ∧
      m3.allocated = (clearRange m addr sz).allocated ∧
      m3.memorySize = m.memorySize := by
  unfold MemoryEngine.free
  simp only [h]
  split
  · exact ⟨_, rfl, rfl, clearRange_memorySize m addr sz⟩
  · exact ⟨_, rfl, rfl, clearRange_memorySize m addr sz⟩

/-- Characterization of a successful `allocate`: the size guard passed,
the returned address is the least free run at or above the watermark,
and the new engine is `markAllocated` of the old. -/
theorem allocate_ok_spec (m : MemoryEngine) (size : ℕ) (type : String)
    (a : ℕ) (m' : MemoryEngine) (h : m.allocate size type = .ok (a, m')) :
    1 ≤ size ∧ m.nextFreeAddress ≤ a ∧ a + size ≤ m.memorySize ∧
    (∀ i, i < size → m.allocated (a + i) = false) ∧
    (∀ b, m.nextFreeAddress ≤ b → b < a → ∃ i, i < size ∧ m.allocated (b + i) = true) ∧
    m' = m.markAllocated a size type := by
  unfold MemoryEngine.allocate at h
  by_cases hsz : size ≤ 0
  · rw [if_pos hsz] at h
    cases h
  · rw [if_neg hsz] at h
    cases hfb : m.findFreeBlock size with
    | error e =>
      simp only [hfb] at h
      exact Except.noConfusion h
    | ok addr =>
      simp only [hfb, Except.ok.injEq, Prod.mk.injEq] at h
      obtain ⟨rfl, rfl⟩ := h
      obtain ⟨h1, h2, h3, h4⟩ := findFreeBlockGo_ok m.allocated m.memorySize size
        m.nextFreeAddress addr hfb
      exact ⟨by omega, h1, h2, h3, fun b hb1 hb2 => h4 b hb1 hb2, rfl⟩

/-- Converse of `allocate_ok_spec`, used to evaluate `allocate` on
concrete engines. -/
theorem allocate_eq_ok (m : MemoryEngine) (size : ℕ) (type : String) (a : ℕ)
    (h1 : 1 ≤ size) (h2 : m.nextFreeAddress ≤ a) (h3 : a + size ≤ m.memorySize)
    (h4 : ∀ i, i < size → m.allocated (a + i) = false)
    (h5 : ∀ b, b < a → m.nextFreeAddress ≤ b →
      ∃ i, i < size ∧ m.allocated (b + i) = true) :
    m.allocate size type = .ok (a, m.markAllocated a size type) := by
  unfold MemoryEngine.allocate
  rw [if_neg (by omega)]
  have hfb : m.findFreeBlock size = .ok a :=
    findFreeBlockGo_eq_ok m.allocated m.memorySize size a m.nextFreeAddress h2 h3 h4 h5
  simp only [hfb]

/-- C3: memory round-trip — for an address obtained from a successful
`allocate(size, type)`, `write(a, v)` immediately followed by `read(a)`
returns `v`, and after `free(a)` a subsequent `read(a)` fails with the
not-allocated error. -/
theorem memory_round_trip :
    ∀ (m : MemoryEngine) (size : ℕ) (type : String) (a : ℕ)
      (m' : MemoryEngine) (v : Value),
      m.allocate size type = .ok (a, m') →
      ∃ m2, m'.write a v = .ok m2 ∧ m2.read a = .ok v ∧
        ∃ m3, m2.free a = .ok m3 ∧
          m3.read a = .error ("Memory read error: address " ++ toString a ++
            " not allocated") := by
  intro m size type a m' v h
  obtain ⟨hsz, hwm, hbound, hfree, hmin, hm'⟩ := allocate_ok_spec m size type a m' h
  subst hm'
  have hms : (m.markAllocated a size type).memorySize = m.memorySize := rfl
  have hal : (m.markAllocated a size type).allocated a = true :=
    addRange_true_of_mem m.allocated a size a (le_refl a) (by omega)
  have hnb : ¬ (m.markAllocated a size type).memorySize ≤ a := by
    rw [hms]; omega
  have hw : (m.markAllocated a size type).write a v =
      .ok { m.markAllocated a size type with
            ram := setRam (m.markAllocated a size type).ram a v } := by
    unfold MemoryEngine.write
    rw [if_neg hnb, hal]
    simp
  refine ⟨_, hw, ?_, ?_⟩
  · unfold MemoryEngine.read
    rw [if_neg hnb, hal]
    simp [setRam]
  · have hget : mapGet ({ m.markAllocated a size type with
        ram := setRam (m.markAllocated a size type).ram a v }).allocations a =
        some (size, type) := mapGet_mapSet_self m.allocations a (size, type)
    obtain ⟨m3, hfr, hal3, hms3⟩ := free_ok_fields _ a size type hget
    refine ⟨m3, hfr, ?_⟩
    unfold MemoryEngine.read
    rw [if_neg (by rw [hms3]; exact hnb)]
    rw [hal3, clearRange_allocated_in _ a size a (le_refl a) (by omega)]
    simp

/-- Closed application of `memory_round_trip` on a fresh arena. -/
theorem memory_round_trip_witness :
    ∃ m2, (cexM1.write 1024 (.num 7) = .ok m2) ∧ m2.read 1024 = .ok (.num 7) ∧
      ∃ m3, m2.free 1024 = .ok m3 ∧
        m3.read 1024 = .error ("Memory read error: address " ++ toString 1024 ++
          " not allocated") :=
  memory_round_trip (MemoryEngine.init 1030) 1 "INTEGER" 1024 cexM1 (.num 7)
    (allocate_eq_ok (MemoryEngine.init 1030) 1 "INTEGER" 1024 (by decide)
      (by decide) (by decide) (by decide) (by decide))

/-- Provenance of the counterexample states: the first two allocations on
a fresh 1030-slot arena return 1024 and 1025. -/
theorem cex_alloc_steps :
    (MemoryEngine.init 1030).allocate 1 "INTEGER" = .ok (1024, cexM1) ∧
    cexM1.allocate 1 "INTEGER" = .ok (1025, cexM2) ∧
    cexM2.free 1024 = .ok cexM3 := by
  refine ⟨allocate_eq_ok _ 1 "INTEGER" 1024 (by decide) (by decide) (by decide)
    (by decide) (by decide),
    allocate_eq_ok cexM1 1 "INTEGER" 1025 (by decide) (by decide) (by decide)
      (by decide) (by decide), ?_⟩
  rfl

/-- C4 counterexample: after the hole at 1024 is freed, `allocate(1, t)`
returns 1026 — not 1024, which is a free slot at or above the reserved
region (1024 ≥ SYSTEM_RESERVED, inside the arena) — so `allocate` does
not return the lowest free address above the reserved region. -/
theorem allocate_not_lowest_free_cex :
    (MemoryEngine.init 1030).allocate 1 "INTEGER" = .ok (1024, cexM1) ∧
    cexM1.allocate 1 "INTEGER" = .ok (1025, cexM2) ∧
    cexM2.free 1024 = .ok cexM3 ∧
    cexM3.allocated 1024 = false ∧
    SYSTEM_RESERVED ≤ 1024 ∧
    1024 + 1 ≤ cexM3.memorySize ∧
    (cexM3.allocate 1 "INTEGER").map Prod.fst = .ok 1026 := by
  refine ⟨cex_alloc_steps.1, cex_alloc_steps.2.1, cex_alloc_steps.2.2,
    by decide, by decide, by decide, ?_⟩
  rw [allocate_eq_ok cexM3 1 "INTEGER" 1026 (by decide) (by decide) (by decide)
    (by decide) (by decide)]
  rfl

/-- C4 (amended): a successful `allocate(size, type)` returns the lowest
address at or above the current free-address watermark `nextFreeAddress`
(not the reserved-region base) at which `size` consecutive slots are all
free, and `allocate` fails exactly when no such contiguous free run fits
below the arena end at or above the watermark. -/
theorem allocate_lowest_above_watermark :
    (∀ (m : MemoryEngine) size type a m',
      m.allocate size type = .ok (a, m') →
      1 ≤ size ∧ m.nextFreeAddress ≤ a ∧ a + size ≤ m.memorySize ∧
      (∀ i, i < size → m.allocated (a + i) = false) ∧
      (∀ b, m.nextFreeAddress ≤ b → b < a →
        ∃ i, i < size ∧ m.allocated (b + i) = true) ∧
      m' = m.markAllocated a size type) ∧
    (∀ (m : MemoryEngine) size type e,
      m.allocate size type = .error e → 1 ≤ size →
      e = ("Memory allocation error: cannot find contiguous block of size " ++
        toString size) ∧
      (∀ b, m.nextFreeAddress ≤ b → b + size ≤ m.memorySize →
        ∃ i, i < size ∧ m.allocated (b + i) = true)) := by
  constructor
  · exact fun m size type a m' h => allocate_ok_spec m size type a m' h
  · intro m size type e h hsz
    unfold MemoryEngine.allocate at h
    rw [if_neg (by omega)] at h
    cases hfb : m.findFreeBlock size with
    | error e2 =>
      simp only [hfb, Except.error.injEq] at h
      subst h
      exact findFreeBlockGo_err m.allocated m.memorySize size m.nextFreeAddress e2 hfb
    | ok addr =>
      simp only [hfb] at h
      exact Except.noConfusion h

/-- Closed application of `allocate_lowest_above_watermark` at a concrete
allocation. -/
theorem allocate_lowest_above_watermark_witness :
    1 ≤ 1 ∧ (MemoryEngine.init 1030).nextFreeAddress ≤ 1024 ∧
    1024 + 1 ≤ (MemoryEngine.init 1030).memorySize ∧
    (∀ i, i < 1 → (MemoryEngine.init 1030).allocated (1024 + i) = false) ∧
    (∀ b, (MemoryEngine.init 1030).nextFreeAddress ≤ b → b < 1024 →
      ∃ i, i < 1 ∧ (MemoryEngine.init 1030).allocated (b + i) = true) ∧
    cexM1 = (MemoryEngine.init 1030).markAllocated 1024 1 "INTEGER" :=
  allocate_lowest_above_watermark.1 (MemoryEngine.init 1030) 1 "INTEGER" 1024 cexM1
    (allocate_eq_ok (MemoryEngine.init 1030) 1 "INTEGER" 1024 (by decide)
      (by decide) (by decide) (by decide) (by decide))

/-- Characterization of the FOR-loop body sequence: when the loop
terminates within the fuel bound, the visited values are the arithmetic
progression from the initial value with common difference `⌊step⌋`, every
visited value satisfies the loop guard, and the first value past the list
fails it. -/
theorem forVisitsAux_spec (pos : Bool) (endv step : ℚ) :
    ∀ (fuel : ℕ) (v : ℤ) (l : List ℤ),
      forVisitsAux pos endv step fuel v = some l →
      l = (List.range l.length).map (fun (k : ℕ) => v + (k : ℤ) * ⌊step⌋) ∧
      (∀ k : ℕ, k < l.length →
        forLoopCond pos endv (v + (k : ℤ) * ⌊step⌋) = true) ∧
      forLoopCond pos endv (v + (l.length : ℤ) * ⌊step⌋) = false := by
  intro fuel
  induction fuel with
  | zero => intro v l h; cases h
  | succ f ih =>
    intro v l h
    simp only [forVisitsAux] at h
    by_cases hc : forLoopCond pos endv v
    · rw [if_pos hc] at h
      cases hrec : forVisitsAux pos endv step f (v + ⌊step⌋) with
      | none => rw [hrec] at h; cases h
      | some l2 =>
        rw [hrec] at h
        simp only [Option.map_some', Option.some.injEq] at h
        subst h
        obtain ⟨he, hall, hend⟩ := ih (v + ⌊step⌋) l2 hrec
        refine ⟨?_, ?_, ?_⟩
        · simp only [List.length_cons, List.range_succ_eq_map, List.map_cons,
            List.map_map]
          congr 1
          · simp
          · set n := l2.length with hn
            rw [he]
            apply List.map_congr_left
            intro k _
            simp only [Function.comp_apply]
            push_cast
            ring
        · intro k hk
          cases k with
          | zero => simpa using hc
          | succ k2 =>
            have hx := hall k2 (by simpa using hk)
            have harg : v + ((k2 + 1 : ℕ) : ℤ) * ⌊step⌋ =
                v + ⌊step⌋ + (k2 : ℤ) * ⌊step⌋ := by
              push_cast
              ring
            rw [harg]
            exact hx
        · simp only [List.length_cons]
          have harg : v + ((l2.length + 1 : ℕ) : ℤ) * ⌊step⌋ =
              v + ⌊step⌋ + (l2.length : ℤ) * ⌊step⌋ := by
            push_cast
            ring
          rw [harg]
          exact hend
    · rw [if_neg hc] at h
      simp only [Option.some.injEq] at h
      subst h
      refine ⟨by simp, by intro k hk; simp at hk, ?_⟩
      simpa using hc

/-- C1: FOR-loop semantics — the variable starts at `⌊start⌋` and is
advanced by `⌊step⌋` (recomputed from the original step) after every body
execution; the loop runs while `variable ≤ end` for positive step and
while `variable ≥ end` for negative step (the visited values are exactly
the maximal such arithmetic progression); a step of exactly 0 raises the
run-time error before any flooring.  In particular `FOR i ← 1 TO 5 STEP 1`
visits `1,2,3,4,5` and `FOR i ← 5 TO 1 STEP -1.5` visits `5,3,1`. -/
theorem for_loop_floor_semantics :
    (∀ (start endv step : ℚ) (fuel : ℕ), step = 0 →
      executeFor start endv step fuel = .error "FOR loop STEP cannot be zero") ∧
    (∀ (start endv step : ℚ) (fuel : ℕ) (l : List ℤ),
      executeFor start endv step fuel = .ok (some l) →
      l = (List.range l.length).map (fun (k : ℕ) => ⌊start⌋ + (k : ℤ) * ⌊step⌋) ∧
      (∀ k : ℕ, k < l.length →
        forLoopCond (decide (0 < step)) endv (⌊start⌋ + (k : ℤ) * ⌊step⌋) = true) ∧
      forLoopCond (decide (0 < step)) endv
        (⌊start⌋ + (l.length : ℤ) * ⌊step⌋) = false) ∧
    executeFor 1 5 1 10 = .ok (some [1, 2, 3, 4, 5]) ∧
    executeFor 5 1 (-1.5) 10 = .ok (some [5, 3, 1]) := by
  refine ⟨?_, ?_, by rfl, ?_⟩
  · intro start endv step fuel h
    simp [executeFor, h]
  · intro start endv step fuel l h
    unfold executeFor at h
    by_cases hz : step = 0
    · simp [hz] at h
    · rw [if_neg hz] at h
      simp only [Except.ok.injEq] at h
      exact forVisitsAux_spec _ endv step fuel ⌊start⌋ l h
  · unfold executeFor
    rw [if_neg (by norm_num : ¬ (-1.5 : ℚ) = 0)]
    rw [show (-1.5 : ℚ) = mkRat (-3) 2 from by rw [Rat.mkRat_eq_div]; norm_num]
    rw [show ⌊(5 : ℚ)⌋ = 5 from by norm_num]
    congr 1

/-- Closed application of `for_loop_floor_semantics` at concrete loops. -/
theorem for_loop_floor_semantics_witness :
    executeFor 1 5 0 10 = .error "FOR loop STEP cannot be zero" ∧
    ([5, 3, 1] : List ℤ) =
      (List.range ([5, 3, 1] : List ℤ).length).map
        (fun (k : ℕ) => ⌊(5 : ℚ)⌋ + (k : ℤ) * ⌊(-1.5 : ℚ)⌋) :=
  ⟨for_loop_floor_semantics.1 1 5 0 10 rfl,
   (for_loop_floor_semantics.2.1 5 1 (-1.5) 10 [5, 3, 1] (by
      unfold executeFor
      rw [if_neg (by norm_num : ¬ (-1.5 : ℚ) = 0)]
      rw [show (-1.5 : ℚ) = mkRat (-3) 2 from by rw [Rat.mkRat_eq_div]; norm_num]
      rw [show ⌊(5 : ℚ)⌋ = 5 from by norm_num]
      congr 1)).1⟩

/-- Auxiliary: `Map.set` on a scope with the key present rebinds the
key. -/
theorem find?_ctxSet_aux :
    ∀ (ctx : Ctx) (k : String) (v : ℕ),
      ctx.any (fun e => e.1 = k) = true →
      List.find? (fun e => e.1 = k)
        (ctx.map (fun e => if e.1 = k then (k, v) else e)) = some (k, v) := by
  intro ctx k v h
  induction ctx with
  | nil => simp at h
  | cons e t ih =>
    by_cases he : e.1 = k
    · simp [List.find?_cons, he]
    · simp only [List.any_cons] at h
      have ht : t.any (fun e => e.1 = k) = true := by
        simpa [he] using h
      simpa [List.find?_cons, he] using ih ht

/-- Binding a name in a scope makes lookup of that name return the new
reference. -/
theorem getVariableRef_ctxSet_self (ctx : Ctx) (k : String) (v : ℕ) :
    getVariableRef (ctxSet ctx k v) k = some v := by
  unfold getVariableRef ctxSet
  by_cases h : ctx.any (fun e => e.1 = k)
  · rw [if_pos h, find?_ctxSet_aux ctx k v h]
    rfl
  · rw [if_neg h]
    have hnone : List.find? (fun e => e.1 = k) ctx = none := by
      rw [List.find?_eq_none]
      intro x hx hxk
      exact h (List.any_eq_true.mpr ⟨x, hx, hxk⟩)
    rw [List.find?_append, hnone]
    simp

/-- Binding a name leaves lookups of other names unchanged. -/
theorem getVariableRef_ctxSet_ne (ctx : Ctx) (k : String) (v : ℕ) (k2 : String)
    (h : k2 ≠ k) :
    getVariableRef (ctxSet ctx k v) k2 = getVariableRef ctx k2 := by
  unfold getVariableRef ctxSet
  by_cases hp : ctx.any (fun e => e.1 = k)
  · rw [if_pos hp]
    congr 1
    clear hp
    induction ctx with
    | nil => rfl
    | cons e t ih =>
      simp only [List.map_cons, List.find?]
      by_cases he : e.1 = k
      · have h1 : ¬ ((k : String) = k2) := Ne.symm h
        simp [he, h1, ih]
      · simp only [if_neg he]
        by_cases he2 : e.1 = k2
        · simp [he2]
        · simp [he2, ih]
  · rw [if_neg hp, List.find?_append]
    have h2 : List.find? (fun e => e.1 = k2) [(k, v)] = none := by
      simp [List.find?_cons, Ne.symm h]
    rw [h2]
    cases List.find? (fun e => e.1 = k2) ctx <;> rfl

/-- Lookup along an appended scope chain tries the inner scope first. -/
theorem getVariableRef_append (l1 l2 : Ctx) (n : String) :
    getVariableRef (l1 ++ l2) n =
      match getVariableRef l1 n with
      | some r => some r
      | none => getVariableRef l2 n := by
  unfold getVariableRef
  rw [List.find?_append]
  cases List.find? (fun e => e.1 = n) l1 <;> rfl

/-- C6: uninitialized-use detection — evaluating an identifier or an
array element that has not yet been assigned raises the corresponding
`used before assignment` / `accessed before assignment` run-time error;
once an assignment to it has occurred, a subsequent read succeeds and
returns the assigned value (and no assignment ever clears another
variable's initialized flag). -/
theorem uninitialized_use_detection :
    (∀ (st : VarStore) (ctx : Ctx) (name : String) (r : ℕ),
      getVariableRef ctx name = some r →
      (st.cells r).initialized = false →
      evaluateIdentifier st ctx name =
        .error ("Variable '" ++ name ++ "' used before assignment")) ∧
    (∀ (st : VarStore) (ctx : Ctx) (name ty : String),
      evaluateIdentifier (declareVar st ctx name ty).2
        (declareVar st ctx name ty).1 name =
        .error ("Variable '" ++ name ++ "' used before assignment")) ∧
    (∀ (st : VarStore) (ctx : Ctx) (name : String) (e : Expr) (v : Value)
      (st2 : VarStore),
      evaluateExpr st ctx e = .ok v →
      executeAssignment st ctx name e = .ok st2 →
      evaluateIdentifier st2 ctx name = .ok v) ∧
    (∀ (st : VarStore) (ctx : Ctx) (name : String) (e : Expr) (st2 : VarStore)
      (r : ℕ),
      executeAssignment st ctx name e = .ok st2 →
      (st.cells r).initialized = true → (st2.cells r).initialized = true) ∧
    (∀ (dims : List (ℤ × ℤ)) (indices : List ℤ),
      List.Forall₂ (fun (idx : ℤ) (d : ℤ × ℤ) => d.1 ≤ idx ∧ idx ≤ d.2)
        indices dims →
      indices ≠ [] →
      getArrayElement (createArray dims) indices dims =
        .error "Array element accessed before assignment") ∧
    (∀ (arr : ArrTree) (indices : List ℤ) (v : Value) (dims : List (ℤ × ℤ))
      (arr2 : ArrTree),
      setArrayElement arr indices v dims = .ok arr2 →
      getArrayElement arr2 indices dims = .ok v) := by
  refine ⟨?_, ?_, ?_, ?_, ?_, ?_⟩
  · intro st ctx name r h1 h2
    unfold evaluateIdentifier
    rw [h1]
    simp [h2]
  · intro st ctx name ty
    simp only [declareVar]
    unfold evaluateIdentifier
    rw [getVariableRef_ctxSet_self]
    simp
  · intro st ctx name e v st2 h1 h2
    unfold executeAssignment at h2
    rw [h1] at h2
    cases hr : getVariableRef ctx name with
    | none => rw [hr] at h2; exact Except.noConfusion h2
    | some r =>
      rw [hr] at h2
      simp only [Except.ok.injEq] at h2
      subst h2
      unfold evaluateIdentifier
      rw [hr]
      simp [VarStore.setCell]
  · intro st ctx name e st2 r h1 h2
    unfold executeAssignment at h1
    cases he : evaluateExpr st ctx e with
    | error msg => rw [he] at h1; exact Except.noConfusion h1
    | ok v =>
      rw [he] at h1
      cases hr : getVariableRef ctx name with
      | none => rw [hr] at h1; exact Except.noConfusion h1
      | some r2 =>
        rw [hr] at h1
        simp only [Except.ok.injEq] at h1
        subst h1
        simp only [VarStore.setCell]
        by_cases hrr : r = r2
        · simp [hrr]
        · simp [hrr, h2]
  · intro dims indices hrel hne
    induction indices generalizing dims with
    | nil => exact absurd rfl hne
    | cons idx rest ih =>
      cases hrel with
      | cons hd htail =>
        rename_i d restD
        cases rest with
        | nil =>
          cases htail
          unfold createArray getArrayElement
          rw [if_neg (by push_neg; omega)]
          rfl
        | cons idx2 rest2 =>
          have hne2 : restD ≠ [] := by
            cases htail
            exact fun hh => List.noConfusion hh
          obtain ⟨d2, restD2, rfl⟩ : ∃ d2 r2, restD = d2 :: r2 := by
            cases restD with
            | nil => exact absurd rfl hne2
            | cons a b => exact ⟨a, b, rfl⟩
          unfold createArray getArrayElement
          rw [if_neg (by push_neg; omega)]
          exact ih (d2 :: restD2) htail (fun hh => List.noConfusion hh)
  · intro arr indices v dims arr2 h
    induction indices generalizing arr dims arr2 with
    | nil =>
      cases arr <;> cases dims <;> exact Except.noConfusion h
    | cons idx rest ih =>
      cases rest with
      | nil =>
        cases arr with
        | cell i w => cases dims <;> exact Except.noConfusion h
        | dim f =>
          cases dims with
          | nil => exact Except.noConfusion h
          | cons d restD =>
            unfold setArrayElement at h
            by_cases hb : idx < d.1 ∨ d.2 < idx
            · rw [if_pos hb] at h
              exact Except.noConfusion h
            · rw [if_neg hb] at h
              simp only [Except.ok.injEq] at h
              subst h
              unfold getArrayElement
              rw [if_neg hb]
              simp
      | cons idx2 rest2 =>
        cases arr with
        | cell i w => cases dims <;> exact Except.noConfusion h
        | dim f =>
          cases dims with
          | nil => exact Except.noConfusion h
          | cons d restD =>
            unfold setArrayElement at h
            by_cases hb : idx < d.1 ∨ d.2 < idx
            · rw [if_pos hb] at h
              exact Except.noConfusion h
            · rw [if_neg hb] at h
              cases hsub : setArrayElement (f idx) (idx2 :: rest2) v restD with
              | error msg => rw [hsub] at h; exact Except.noConfusion h
              | ok sub =>
                rw [hsub] at h
                simp only [Except.ok.injEq] at h
                subst h
                unfold getArrayElement
                rw [if_neg hb]
                simp only [if_pos rfl]
                exact ih (f idx) restD sub hsub

/-- Closed application of `uninitialized_use_detection` at a concrete
store and array. -/
theorem uninitialized_use_detection_witness :
    evaluateIdentifier
        (declareVar ⟨fun _ => ⟨"", .undef, false⟩, 0⟩ [] "x" "INTEGER").2
        (declareVar ⟨fun _ => ⟨"", .undef, false⟩, 0⟩ [] "x" "INTEGER").1 "x" =
      .error "Variable 'x' used before assignment" ∧
    getArrayElement (createArray [((1 : ℤ), (3 : ℤ))]) [(2 : ℤ)] [(1, 3)] =
      .error "Array element accessed before assignment" ∧
    evaluateIdentifier
        ((declareVar ⟨fun _ => ⟨"", .undef, false⟩, 0⟩ [] "x" "INTEGER").2.setCell 0
          ⟨"INTEGER", .num 5, true⟩)
        (declareVar ⟨fun _ => ⟨"", .undef, false⟩, 0⟩ [] "x" "INTEGER").1 "x" =
      .ok (.num 5) :=
  ⟨uninitialized_use_detection.2.1
      ⟨fun _ => ⟨"", .undef, false⟩, 0⟩ [] "x" "INTEGER",
   uninitialized_use_detection.2.2.2.2.1 [(1, 3)] [2]
      (List.Forall₂.cons (by constructor <;> decide) List.Forall₂.nil)
      (by intro hh; exact List.noConfusion hh),
   uninitialized_use_detection.2.2.1
      (declareVar ⟨fun _ => ⟨"", .undef, false⟩, 0⟩ [] "x" "INTEGER").2
      (declareVar ⟨fun _ => ⟨"", .undef, false⟩, 0⟩ [] "x" "INTEGER").1
      "x" (.lit (.num 5)) (.num 5) _ rfl rfl⟩

/-- Unfolding of the binding loop at a BYREF parameter with an
identifier argument. -/
theorem bindLoop_cons_byref_ident (cctx : Ctx) (rest : List (Param × Expr))
    (acc : Ctx) (st : VarStore) (p : Param) (x : String)
    (hbr : p.byRef = true) :
    bindLoop cctx ((p, Expr.ident x) :: rest) acc st =
      match getVariableRef cctx x with
      | none => Except.error ("Variable '" ++ x ++ "' not found")
      | some r => bindLoop cctx rest (ctxSet acc p.name r) st := by
  simp only [bindLoop, hbr, if_true]

/-- Unfolding of the binding loop at a BYREF parameter with a literal
argument. -/
theorem bindLoop_cons_byref_lit (cctx : Ctx) (rest : List (Param × Expr))
    (acc : Ctx) (st : VarStore) (p : Param) (w : Value)
    (hbr : p.byRef = true) :
    bindLoop cctx ((p, Expr.lit w) :: rest) acc st =
      .error "BYREF parameter must be a variable" := by
  simp only [bindLoop, hbr, if_true]

/-- Unfolding of the binding loop at a BYVAL parameter. -/
theorem bindLoop_cons_byval (cctx : Ctx) (rest : List (Param × Expr))
    (acc : Ctx) (st : VarStore) (p : Param) (a : Expr)
    (hbr : p.byRef = false) :
    bindLoop cctx ((p, a) :: rest) acc st =
      match evaluateExpr st cctx a with
      | .error e => .error e
      | .ok value =>
        bindLoop cctx rest (ctxSet acc p.name st.next)
          ⟨fun y => if y = st.next then ⟨p.type, value, true⟩ else st.cells y,
            st.next + 1⟩ := by
  simp only [bindLoop, hbr, Bool.false_eq_true, if_false]

/-- Names not bound by the remaining parameter pairs keep their lookup
from the accumulated local scope. -/
theorem bindLoop_frame (cctx : Ctx) :
    ∀ (pairs : List (Param × Expr)) (acc : Ctx) (st : VarStore) (lctx : Ctx)
      (st2 : VarStore),
      bindLoop cctx pairs acc st = .ok (lctx, st2) →
      ∀ name, name ∉ pairs.map (fun pa => pa.1.name) →
        getVariableRef lctx name = getVariableRef acc name := by
  intro pairs
  induction pairs with
  | nil =>
    intro acc st lctx st2 h name _
    simp only [bindLoop, Except.ok.injEq, Prod.mk.injEq] at h
    obtain ⟨rfl, rfl⟩ := h
    rfl
  | cons pa rest ih =>
    intro acc st lctx st2 h name hn
    obtain ⟨p, a⟩ := pa
    simp only [List.map_cons, List.mem_cons] at hn
    push_neg at hn
    obtain ⟨hn1, hn2⟩ := hn
    by_cases hbr : p.byRef
    · cases a with
      | lit w =>
        rw [bindLoop_cons_byref_lit cctx rest acc st p w hbr] at h
        exact Except.noConfusion h
      | ident x =>
        rw [bindLoop_cons_byref_ident cctx rest acc st p x hbr] at h
        cases hlx : getVariableRef cctx x with
        | none => rw [hlx] at h; exact Except.noConfusion h
        | some r =>
          rw [hlx] at h
          rw [ih (ctxSet acc p.name r) st lctx st2 h name hn2]
          exact getVariableRef_ctxSet_ne acc p.name r name hn1
    · rw [bindLoop_cons_byval cctx rest acc st p a
        (Bool.not_eq_true _ ▸ eq_false_of_ne_true hbr)] at h
      cases he : evaluateExpr st cctx a with
      | error msg => rw [he] at h; exact Except.noConfusion h
      | ok w =>
        rw [he] at h
        rw [ih _ _ lctx st2 h name hn2]
        exact getVariableRef_ctxSet_ne acc p.name st.next name hn1

/-- Parameter binding only creates cells at fresh references: the next
counter is monotone and existing cells are untouched. -/
theorem bindLoop_store_mono (cctx : Ctx) :
    ∀ (pairs : List (Param × Expr)) (acc : Ctx) (st : VarStore) (lctx : Ctx)
      (st2 : VarStore),
      bindLoop cctx pairs acc st = .ok (lctx, st2) →
      st.next ≤ st2.next ∧ ∀ r, r < st.next → st2.cells r = st.cells r := by
  intro pairs
  induction pairs with
  | nil =>
    intro acc st lctx st2 h
    simp only [bindLoop, Except.ok.injEq, Prod.mk.injEq] at h
    obtain ⟨rfl, rfl⟩ := h
    exact ⟨le_refl _, fun r _ => rfl⟩
  | cons pa rest ih =>
    intro acc st lctx st2 h
    obtain ⟨p, a⟩ := pa
    by_cases hbr : p.byRef
    · cases a with
      | lit w =>
        rw [bindLoop_cons_byref_lit cctx rest acc st p w hbr] at h
        exact Except.noConfusion h
      | ident x =>
        rw [bindLoop_cons_byref_ident cctx rest acc st p x hbr] at h
        cases hlx : getVariableRef cctx x with
        | none => rw [hlx] at h; exact Except.noConfusion h
        | some r =>
          rw [hlx] at h
          exact ih _ _ lctx st2 h
    · rw [bindLoop_cons_byval cctx rest acc st p a
        (Bool.not_eq_true _ ▸ eq_false_of_ne_true hbr)] at h
      cases he : evaluateExpr st cctx a with
      | error msg => rw [he] at h; exact Except.noConfusion h
      | ok w =>
        rw [he] at h
        obtain ⟨h1, h2⟩ := ih _ _ lctx st2 h
        simp only at h1 h2
        refine ⟨by omega, ?_⟩
        intro r hr
        rw [h2 r (by omega)]
        simp [show ¬ r = st.next by omega]

/-- A BYREF parameter is bound in the callee's local scope to exactly the
caller's cell reference for the argument identifier. -/
theorem bindLoop_byref_ref (cctx : Ctx) :
    ∀ (pairs : List (Param × Expr)) (acc : Ctx) (st : VarStore) (lctx : Ctx)
      (st2 : VarStore) (p : Param) (x : String),
      bindLoop cctx pairs acc st = .ok (lctx, st2) →
      (p, Expr.ident x) ∈ pairs → p.byRef = true →
      (pairs.map (fun pa => pa.1.name)).Nodup →
      ∃ r, getVariableRef cctx x = some r ∧
        getVariableRef lctx p.name = some r := by
  intro pairs
  induction pairs with
  | nil => intro acc st lctx st2 p x h hmem; cases hmem
  | cons pa rest ih =>
    intro acc st lctx st2 p x h hmem hbr hnd
    obtain ⟨p2, a2⟩ := pa
    simp only [List.map_cons, List.nodup_cons] at hnd
    obtain ⟨hnd1, hnd2⟩ := hnd
    rcases List.mem_cons.mp hmem with heq | htail
    · obtain ⟨hp, ha⟩ := Prod.mk.inj heq
      subst hp
      subst ha
      rw [bindLoop_cons_byref_ident cctx rest acc st p x hbr] at h
      cases hlx : getVariableRef cctx x with
      | none => rw [hlx] at h; exact Except.noConfusion h
      | some r =>
        rw [hlx] at h
        refine ⟨r, rfl, ?_⟩
        rw [bindLoop_frame cctx rest _ st lctx st2 h p.name hnd1]
        exact getVariableRef_ctxSet_self acc p.name r
    · by_cases hbr2 : p2.byRef
      · cases a2 with
        | lit w =>
          rw [bindLoop_cons_byref_lit cctx rest acc st p2 w hbr2] at h
          exact Except.noConfusion h
        | ident y =>
          rw [bindLoop_cons_byref_ident cctx rest acc st p2 y hbr2] at h
          cases hly : getVariableRef cctx y with
          | none => rw [hly] at h; exact Except.noConfusion h
          | some r2 =>
            rw [hly] at h
            exact ih _ _ lctx st2 p x h htail hbr hnd2
      · rw [bindLoop_cons_byval cctx rest acc st p2 a2
          (Bool.not_eq_true _ ▸ eq_false_of_ne_true hbr2)] at h
        cases he : evaluateExpr st cctx a2 with
        | error msg => rw [he] at h; exact Except.noConfusion h
        | ok w =>
          rw [he] at h
          exact ih _ _ lctx st2 p x h htail hbr hnd2

/-- A BYVAL parameter is bound in the callee's local scope to a fresh
cell reference (at or above the pre-call next counter). -/
theorem bindLoop_byval_ref (cctx : Ctx) :
    ∀ (pairs : List (Param × Expr)) (acc : Ctx) (st : VarStore) (lctx : Ctx)
      (st2 : VarStore) (p : Param) (a : Expr),
      bindLoop cctx pairs acc st = .ok (lctx, st2) →
      (p, a) ∈ pairs → p.byRef = false →
      (pairs.map (fun pa => pa.1.name)).Nodup →
      ∃ r2, getVariableRef lctx p.name = some r2 ∧ st.next ≤ r2 := by
  intro pairs
  induction pairs with
  | nil => intro acc st lctx st2 p a h hmem; cases hmem
  | cons pa rest ih =>
    intro acc st lctx st2 p a h hmem hbr hnd
    obtain ⟨p2, a2⟩ := pa
    simp only [List.map_cons, List.nodup_cons] at hnd
    obtain ⟨hnd1, hnd2⟩ := hnd
    rcases List.mem_cons.mp hmem with heq | htail
    · obtain ⟨hp, ha⟩ := Prod.mk.inj heq
      subst hp
      subst ha
      rw [bindLoop_cons_byval cctx rest acc st p a hbr] at h
      cases he : evaluateExpr st cctx a with
      | error msg => rw [he] at h; exact Except.noConfusion h
      | ok w =>
        rw [he] at h
        refine ⟨st.next, ?_, le_refl _⟩
        rw [bindLoop_frame cctx rest _ _ lctx st2 h p.name hnd1]
        exact getVariableRef_ctxSet_self acc p.name st.next
    · by_cases hbr2 : p2.byRef
      · cases a2 with
        | lit w =>
          rw [bindLoop_cons_byref_lit cctx rest acc st p2 w hbr2] at h
          exact Except.noConfusion h
        | ident y =>
          rw [bindLoop_cons_byref_ident cctx rest acc st p2 y hbr2] at h
          cases hly : getVariableRef cctx y with
          | none => rw [hly] at h; exact Except.noConfusion h
          | some r2 =>
            rw [hly] at h
            exact ih _ _ lctx st2 p a h htail hbr hnd2
      · rw [bindLoop_cons_byval cctx rest acc st p2 a2
          (Bool.not_eq_true _ ▸ eq_false_of_ne_true hbr2)] at h
        cases he : evaluateExpr st cctx a2 with
        | error msg => rw [he] at h; exact Except.noConfusion h
        | ok w =>
          rw [he] at h
          obtain ⟨r2, hl, hr⟩ := ih _ _ lctx st2 p a h htail hbr hnd2
          simp only at hr
          exact ⟨r2, hl, by omega⟩

/-- Binding succeeds only when every BYREF argument is a bare
identifier. -/
theorem bindLoop_ok_byref_ident (cctx : Ctx) :
    ∀ (pairs : List (Param × Expr)) (acc : Ctx) (st : VarStore)
      (res : Ctx × VarStore),
      bindLoop cctx pairs acc st = .ok res →
      ∀ p a, (p, a) ∈ pairs → p.byRef = true → ∃ x, a = Expr.ident x := by
  intro pairs
  induction pairs with
  | nil => intro acc st res h p a hmem; cases hmem
  | cons pa rest ih =>
    intro acc st res h p a hmem hbr
    obtain ⟨p2, a2⟩ := pa
    rcases List.mem_cons.mp hmem with heq | htail
    · obtain ⟨hp, ha⟩ := Prod.mk.inj heq
      subst hp
      subst ha
      cases a with
      | lit w =>
        rw [bindLoop_cons_byref_lit cctx rest acc st p w hbr] at h
        exact Except.noConfusion h
      | ident x => exact ⟨x, rfl⟩
    · by_cases hbr2 : p2.byRef
      · cases a2 with
        | lit w =>
          rw [bindLoop_cons_byref_lit cctx rest acc st p2 w hbr2] at h
          exact Except.noConfusion h
        | ident y =>
          rw [bindLoop_cons_byref_ident cctx rest acc st p2 y hbr2] at h
          cases hly : getVariableRef cctx y with
          | none => rw [hly] at h; exact Except.noConfusion h
          | some r2 =>
            rw [hly] at h
            exact ih _ _ res h p a htail hbr
      · rw [bindLoop_cons_byval cctx rest acc st p2 a2
          (Bool.not_eq_true _ ▸ eq_false_of_ne_true hbr2)] at h
        cases he : evaluateExpr st cctx a2 with
        | error msg => rw [he] at h; exact Except.noConfusion h
        | ok w =>
          rw [he] at h
          exact ih _ _ res h p a htail hbr


/-- Assigning a literal to a resolved identifier updates exactly its
cell. -/
theorem executeAssignment_lit_eq (st : VarStore) (ctx : Ctx) (name : String)
    (v : Value) (r : ℕ) (h : getVariableRef ctx name = some r) :
    executeAssignment st ctx name (.lit v) =
      .ok (st.setCell r { st.cells r with value := v, initialized := true }) := by
  unfold executeAssignment evaluateExpr
  rw [h]

/-- With equal argument and parameter counts the bound pair list projects
back onto the parameter list. -/
theorem zip_map_param_names (params : List Param) (args : List Expr)
    (h : args.length = params.length) :
    (params.zip args).map (fun pa => pa.1.name) = params.map Param.name := by
  have h1 : (params.zip args).map Prod.fst = params :=
    List.map_fst_zip params args (by omega)
  calc (params.zip args).map (fun pa => pa.1.name)
      = ((params.zip args).map Prod.fst).map Param.name := by
        rw [List.map_map]; rfl
    _ = params.map Param.name := by rw [h1]

/-- C5: parameter passing — a BYREF parameter is bound to the same
Variable record (cell) as the caller's bare-identifier argument, so an
assignment to the parameter inside the body is immediately visible when
the caller's variable is read; a BYVAL parameter receives a fresh copy,
so an assignment to it never changes the caller's variable; and passing a
non-identifier expression to a BYREF parameter makes the call raise a
run-time error (`BYREF parameter must be a variable` when the offending
pair is reached first). -/
theorem byref_byval_parameter_binding :
    (∀ (params : List Param) (args : List Expr) (cctx gctx : Ctx)
      (st : VarStore) (procName : String) (ctxAll : Ctx) (st2 : VarStore)
      (p : Param) (x : String) (v : Value) (rx : ℕ),
      bindParameters params args cctx gctx st procName = .ok (ctxAll, st2) →
      (p, Expr.ident x) ∈ params.zip args → p.byRef = true →
      (params.map Param.name).Nodup →
      getVariableRef cctx x = some rx →
      getVariableRef ctxAll p.name = some rx ∧
      ∀ st3, executeAssignment st2 ctxAll p.name (.lit v) = .ok st3 →
        (st3.cells rx).value = v ∧ evaluateIdentifier st3 cctx x = .ok v) ∧
    (∀ (params : List Param) (args : List Expr) (cctx gctx : Ctx)
      (st : VarStore) (procName : String) (ctxAll : Ctx) (st2 : VarStore)
      (p : Param) (a : Expr) (x : String) (rx : ℕ) (v : Value),
      bindParameters params args cctx gctx st procName = .ok (ctxAll, st2) →
      (p, a) ∈ params.zip args → p.byRef = false →
      (params.map Param.name).Nodup →
      getVariableRef cctx x = some rx → rx < st.next →
      ∀ st3, executeAssignment st2 ctxAll p.name (.lit v) = .ok st3 →
        st3.cells rx = st.cells rx ∧
        evaluateIdentifier st3 cctx x = evaluateIdentifier st cctx x) ∧
    (∀ (params : List Param) (args : List Expr) (cctx gctx : Ctx)
      (st : VarStore) (procName : String) (p : Param) (a : Expr),
      (p, a) ∈ params.zip args → p.byRef = true →
      (∀ x, a ≠ Expr.ident x) →
      ∃ msg, bindParameters params args cctx gctx st procName = .error msg) ∧
    (∀ (p : Param) (ps : List Param) (w : Value) (args2 : List Expr)
      (cctx gctx : Ctx) (st : VarStore) (procName : String),
      p.byRef = true → args2.length = ps.length →
      bindParameters (p :: ps) (Expr.lit w :: args2) cctx gctx st procName =
        .error "BYREF parameter must be a variable") := by
  refine ⟨?_, ?_, ?_, ?_⟩
  · intro params args cctx gctx st procName ctxAll st2 p x v rx
    intro hbp hmem hbr hnd hcx
    unfold bindParameters at hbp
    by_cases hlen : args.length = params.length
    · rw [if_pos hlen] at hbp
      cases hb : bindLoop cctx (params.zip args) [] st with
      | error msg => rw [hb] at hbp; exact Except.noConfusion hbp
      | ok res =>
        obtain ⟨lctx, st2'⟩ := res
        rw [hb] at hbp
        simp only [Except.ok.injEq, Prod.mk.injEq] at hbp
        obtain ⟨rfl, rfl⟩ := hbp
        have hndz : ((params.zip args).map (fun pa => pa.1.name)).Nodup := by
          rw [zip_map_param_names params args hlen]; exact hnd
        obtain ⟨r, hcx2, hlp⟩ :=
          bindLoop_byref_ref cctx (params.zip args) [] st lctx st2' p x hb
            hmem hbr hndz
        rw [hcx] at hcx2
        obtain rfl : rx = r := Option.some.inj hcx2
        have hlookupAll : getVariableRef (lctx ++ gctx) p.name = some rx := by
          rw [getVariableRef_append, hlp]
        refine ⟨hlookupAll, ?_⟩
        intro st3 hassign
        rw [executeAssignment_lit_eq st2' (lctx ++ gctx) p.name v rx hlookupAll]
          at hassign
        simp only [Except.ok.injEq] at hassign
        subst hassign
        constructor
        · simp [VarStore.setCell]
        · unfold evaluateIdentifier
          rw [hcx]
          simp [VarStore.setCell]
    · rw [if_neg hlen] at hbp
      exact Except.noConfusion hbp
  · intro params args cctx gctx st procName ctxAll st2 p a x rx v
    intro hbp hmem hbr hnd hcx hrx
    unfold bindParameters at hbp
    by_cases hlen : args.length = params.length
    · rw [if_pos hlen] at hbp
      cases hb : bindLoop cctx (params.zip args) [] st with
      | error msg => rw [hb] at hbp; exact Except.noConfusion hbp
      | ok res =>
        obtain ⟨lctx, st2'⟩ := res
        rw [hb] at hbp
        simp only [Except.ok.injEq, Prod.mk.injEq] at hbp
        obtain ⟨rfl, rfl⟩ := hbp
        have hndz : ((params.zip args).map (fun pa => pa.1.name)).Nodup := by
          rw [zip_map_param_names params args hlen]; exact hnd
        obtain ⟨r2, hlp, hr2⟩ :=
          bindLoop_byval_ref cctx (params.zip args) [] st lctx st2' p a hb
            hmem hbr hndz
        obtain ⟨_hm1, hm2⟩ :=
          bindLoop_store_mono cctx (params.zip args) [] st lctx st2' hb
        have hlookupAll : getVariableRef (lctx ++ gctx) p.name = some r2 := by
          rw [getVariableRef_append, hlp]
        intro st3 hassign
        rw [executeAssignment_lit_eq st2' (lctx ++ gctx) p.name v r2 hlookupAll]
          at hassign
        simp only [Except.ok.injEq] at hassign
        subst hassign
        have hcells :
            ((st2'.setCell r2
              { st2'.cells r2 with value := v, initialized := true }).cells rx) =
              st.cells rx := by
          show (if rx = r2 then _ else st2'.cells rx) = st.cells rx
          rw [if_neg (by omega : ¬ rx = r2)]
          exact hm2 rx hrx
        refine ⟨hcells, ?_⟩
        simp only [evaluateIdentifier, hcx, hcells]
    · rw [if_neg hlen] at hbp
      exact Except.noConfusion hbp
  · intro params args cctx gctx st procName p a hmem hbr hne
    by_cases hlen : args.length = params.length
    · cases hb : bindLoop cctx (params.zip args) [] st with
      | error msg =>
        refine ⟨msg, ?_⟩
        unfold bindParameters
        rw [if_pos hlen, hb]
      | ok res =>
        exfalso
        obtain ⟨x, rfl⟩ :=
          bindLoop_ok_byref_ident cctx (params.zip args) [] st res hb p a
            hmem hbr
        exact hne x rfl
    · refine ⟨"Incorrect number of arguments for procedure '" ++ procName ++ "'", ?_⟩
      unfold bindParameters
      rw [if_neg hlen]
  · intro p ps w args2 cctx gctx st procName hbr hlen
    unfold bindParameters
    rw [if_pos (by simp [hlen])]
    simp only [List.zip_cons_cons, bindLoop, if_pos hbr]

/-- Closed application of `byref_byval_parameter_binding` at a concrete
one-parameter BYREF call. -/
theorem byref_byval_parameter_binding_witness :
    getVariableRef
        ([("a", 0)] ++ [("x", 0)])
        "a" = some 0 ∧
    bindParameters [⟨"a", "INTEGER", true⟩] [Expr.ident "x"] [("x", 0)]
        [("x", 0)] ⟨fun _ => ⟨"INTEGER", .num 1, true⟩, 1⟩ "P" =
      .ok ([("a", 0)] ++ [("x", 0)], ⟨fun _ => ⟨"INTEGER", .num 1, true⟩, 1⟩) ∧
    bindParameters [⟨"b", "INTEGER", true⟩] [Expr.lit (.num 2)] [("x", 0)]
        [("x", 0)] ⟨fun _ => ⟨"INTEGER", .num 1, true⟩, 1⟩ "P" =
      .error "BYREF parameter must be a variable" :=
  ⟨(byref_byval_parameter_binding.1 [⟨"a", "INTEGER", true⟩] [Expr.ident "x"]
      [("x", 0)] [("x", 0)] ⟨fun _ => ⟨"INTEGER", .num 1, true⟩, 1⟩ "P"
      ([("a", 0)] ++ [("x", 0)]) ⟨fun _ => ⟨"INTEGER", .num 1, true⟩, 1⟩
      ⟨"a", "INTEGER", true⟩ "x" (.num 2) 0 rfl (by decide) rfl (by decide)
      rfl).1,
   rfl,
   byref_byval_parameter_binding.2.2.2 ⟨"b", "INTEGER", true⟩ [] (.num 2) []
     [("x", 0)] [("x", 0)] ⟨fun _ => ⟨"INTEGER", .num 1, true⟩, 1⟩ "P" rfl rfl⟩

/-- C8: `tokenize` is total — it is a terminating function (its
definition carries the termination measure `cs.length`, each scanning
step consuming at least one character, so it can never hang), and for
every input string it either raises one of the four lexer errors
(unrecognized character, unterminated string literal, unterminated
character literal, or a `0x` hex literal with no digits), each carrying
the line and column it reports, or returns a token sequence whose last
token is the end-of-input token. -/
theorem tokenize_total_with_eof :
    (∀ code : String,
      (∃ e, tokenize code = .error e) ∨
      (∃ toks, tokenize code = .ok toks ∧ toks ≠ [] ∧
        (toks.getLast?).map Token.type = some TokenType.eof)) ∧
    (∀ e : LexError,
      (∃ l c, e = .unterminatedString l c ∧ e.line = l ∧ e.column = c) ∨
      (∃ l c, e = .unterminatedChar l c ∧ e.line = l ∧ e.column = c) ∨
      (∃ l c, e = .invalidHex l c ∧ e.line = l ∧ e.column = c) ∨
      (∃ ch l c, e = .unexpectedChar ch l c ∧ e.line = l ∧ e.column = c)) := by
  constructor
  · intro code
    unfold tokenize
    cases h : lexGo code.toList 1 1 [] with
    | error e => exact Or.inl ⟨e, rfl⟩
    | ok res =>
      obtain ⟨toks, line, column⟩ := res
      refine Or.inr ⟨toks ++ [⟨.eof, "", line, column⟩], rfl, by simp, ?_⟩
      rw [List.getLast?_concat]
      rfl
  · intro e
    cases e with
    | unterminatedString l c => exact Or.inl ⟨l, c, rfl, rfl, rfl⟩
    | unterminatedChar l c => exact Or.inr (Or.inl ⟨l, c, rfl, rfl, rfl⟩)
    | invalidHex l c => exact Or.inr (Or.inr (Or.inl ⟨l, c, rfl, rfl, rfl⟩))
    | unexpectedChar ch l c =>
      exact Or.inr (Or.inr (Or.inr ⟨ch, l, c, rfl, rfl, rfl⟩))

end Pseudo
